import Mathlib

/-! Verification of the votify `SpotifyApi` core (src/votify/spotify_api.py).

A shallow embedding of the session/authentication lifecycle, the ID
transcoders, the resource fetchers, the collection extender and the
per-process album cache of `votify.spotify_api.SpotifyApi`, together with
theorems settling the specification claims.

Conventions:
* machine time (`time.time() * 1000`) is modelled as a natural number of
  milliseconds;
* Python exceptions are modelled by the `PyErr` type and fallible code by
  `Except PyErr`;
* the third-party `base62` module (PyPI package pybase62, imported by the
  source) is embedded from its published code: `CHARSET_INVERTED`,
  `encode` (divmod loop, `"0"` for non-positive input, `minlen=1`) and
  `decode` (which strips a literal `"0z"` prefix before valuing the
  characters positionally, and raises `ValueError` on a character that is
  not in the charset);
* `int(s, 16)` is embedded as the ASCII fragment of CPython's grammar:
  optional surrounding ASCII whitespace, an optional sign, an optional
  `0x`/`0X` base marker, then hexadecimal digits with single underscores
  allowed between digits (or directly after the base marker).
-/

/-- Model of the Python exception values that the embedded code can carry.
The constructors `invalidIdentifier` and `authenticationBootstrapFailed`
are the typed conditions named by the specification; they are present so
that claims about them can be stated, the embedded code itself only ever
produces the other constructors. -/
inductive PyErr where
  | valueError (msg : String)
  | attributeError (msg : String)
  | remoteRequestFailed (status : Nat)
  | invalidIdentifier
  | authenticationBootstrapFailed
  | modelFuelExhausted
  deriving DecidableEq, Repr

/-! ## Generic digit machinery shared by the base-62 and base-16 codecs -/

/-- First index of a character in a charset (`str.index`). -/
def charIdx (cs : List Char) (c : Char) : Option Nat :=
  match cs with
  | [] => none
  | a :: as => if a = c then some 0 else (charIdx as c).map (· + 1)

/-- Character of a digit value in a charset (`charset[r]`). -/
def charOf (cs : List Char) (d : Nat) : Char :=
  cs.getD d ' '

/-- The remainders produced by the Python loop
`while n > 0: n, r = divmod(n, b); chs.append(charset[r])`,
least-significant first; `fuel` bounds the iteration count so that the
recursion is structural (`digitsRev` supplies enough fuel). -/
def digitsRevFuel (b : Nat) : Nat → Nat → List Nat
  | 0, _ => []
  | fuel + 1, n =>
    if n = 0 ∨ b ≤ 1 then [] else n % b :: digitsRevFuel b fuel (n / b)

def digitsRev (b : Nat) (n : Nat) : List Nat :=
  digitsRevFuel b n n

/-- The value accumulated by the pybase62 decode loop
`v += _value(x) * (BASE ** (l - (i + 1)))`, starting at index `i`. -/
def weightedSum (b : Nat) (l : Nat) : List Nat → Nat → Nat
  | [], _ => 0
  | d :: ds, i => d * b ^ (l - (i + 1)) + weightedSum b l ds (i + 1)

/-- Horner accumulation `acc * b + d` over a digit list. -/
def hornerAcc (b : Nat) : List Nat → Nat → Nat
  | [], acc => acc
  | d :: ds, acc => hornerAcc b ds (acc * b + d)

/-! ## The pybase62 module (imported as `base62` by the source) -/

/-- `base62.CHARSET_INVERTED`: digits, then lowercase, then uppercase. -/
def CHARSET_INVERTED : List Char :=
  ("0123456789abcdefghijklmnopqrstuvwxyzABCDEFGHIJKLMNOPQRSTUVWXYZ").data

/-- `base62._value(ch, charset)`: `charset.index(ch)`, `ValueError` when the
character is not in the charset. -/
def b62value (c : Char) : Except PyErr Nat :=
  match charIdx CHARSET_INVERTED c with
  | some i => .ok i
  | none => .error (.valueError ("base62: Invalid character"))

/-- The `if encoded.startswith("0z"): encoded = encoded[2:]` step of
`base62.decode`, modelled on the character list. -/
def strip0z (l : List Char) : List Char :=
  match l with
  | a :: b :: rest => if a = '0' ∧ b = 'z' then rest else a :: b :: rest
  | l => l

/-- `base62.decode(encoded, charset=CHARSET_INVERTED)`: strips a literal
`"0z"` prefix, then accumulates `_value(x) * 62 ** (l - (i + 1))` over
the characters. -/
def b62decode (s : String) : Except PyErr Nat := do
  let t : List Char := strip0z s.data
  let vals ← t.mapM b62value
  return weightedSum 62 t.length vals 0

/-- `base62.encode(n, charset=CHARSET_INVERTED)` with the default
`minlen=1`: the divmod loop collects remainders least-significant first and
reverses them; a non-positive input yields `"0"`.  The Python `int` argument
is modelled as `Int`. -/
def b62encode (n : Int) : String :=
  let chs := if 0 < n then (digitsRev 62 n.toNat).map (charOf CHARSET_INVERTED) else []
  let chs := if chs.isEmpty then ['0'] else chs.reverse
  String.mk chs

/-! ## Python `hex`, `str.zfill` and `int(s, 16)` -/

/-- The lowercase hexadecimal digits used by Python `hex`. -/
def HEX_CHARS : List Char := ("0123456789abcdef").data

/-- `hex(n)[2:]` for a non-negative `n`: minimal lowercase hexadecimal
digits, `"0"` for zero. -/
def hexEncode (n : Nat) : String :=
  if n = 0 then ("0") else String.mk (((digitsRev 16 n).map (charOf HEX_CHARS)).reverse)

/-- `str.zfill(width)` for a string with no sign character: left-pad with
`'0'` up to `width`. -/
def zfill (width : Nat) (s : String) : String :=
  String.mk (List.replicate (width - s.length) '0' ++ s.data)

/-- Value of one hexadecimal digit character, upper or lower case. -/
def hexVal (c : Char) : Option Nat :=
  match charIdx HEX_CHARS c with
  | some i => some i
  | none =>
    match charIdx (("ABCDEF").data) c with
    | some i => some (10 + i)
    | none => none

/-- ASCII whitespace stripped by Python `int(...)`. -/
def isPySpace (c : Char) : Bool :=
  c = ' ' ∨ c = '\t' ∨ c = '\n' ∨ c = '\r' ∨ c = Char.ofNat 11 ∨ c = Char.ofNat 12

/-- Scanner for the digit part of `int(s, 16)`: hexadecimal digits with
single underscores allowed between digits.  `canUnder` is true when the
previous character was a digit (or, initially, when the `0x` marker was
present); `seen` records whether a digit has occurred. -/
def hexScan : List Char → Nat → Bool → Bool → Option Nat
  | [], acc, canUnder, seen => if canUnder ∧ seen then some acc else none
  | c :: rest, acc, canUnder, seen =>
    if c = '_' then
      if canUnder then hexScan rest acc false seen else none
    else
      match hexVal c with
      | some d => hexScan rest (acc * 16 + d) true true
      | none => none

/-- The optional sign of the `int(...)` literal. -/
def pySignSplit (cs : List Char) : Int × List Char :=
  match cs with
  | a :: r =>
    if a = '+' then (1, r) else if a = '-' then (-1, r) else (1, a :: r)
  | [] => (1, [])

/-- The optional `0x`/`0X` base marker of the `int(..., 16)` literal. -/
def pyPrefixSplit (cs : List Char) : Bool × List Char :=
  match cs with
  | a :: b :: r =>
    if a = '0' ∧ (b = 'x' ∨ b = 'X') then (true, r) else (false, a :: b :: r)
  | l => (false, l)

/-- ASCII fragment of CPython `int(s, 16)`: strip surrounding whitespace,
an optional sign, an optional `0x`/`0X` marker, then the digit scanner;
anything else raises `ValueError`. -/
def pyIntHex (s : String) : Except PyErr Int :=
  let cs := ((s.data.dropWhile isPySpace).reverse.dropWhile isPySpace).reverse
  let sc := pySignSplit cs
  let pc := pyPrefixSplit sc.2
  match hexScan pc.2 0 pc.1 false with
  | some v => .ok (sc.1 * (v : Int))
  | none => .error (.valueError ("invalid literal for int() with base 16"))

/-! ## The two ID transcoders (`SpotifyApi` static methods) -/

/-- `media_id_to_gid`:
`hex(base62.decode(media_id, base62.CHARSET_INVERTED))[2:].zfill(32)`. -/
def media_id_to_gid (mediaId : String) : Except PyErr String := do
  let v ← b62decode mediaId
  return zfill 32 (hexEncode v)

/-- `gid_to_media_id`:
`base62.encode(int(gid, 16), charset=base62.CHARSET_INVERTED).zfill(22)`. -/
def gid_to_media_id (gid : String) : Except PyErr String := do
  let v ← pyIntHex gid
  return zfill 22 (b62encode v)

/-! ## Session model

The `requests.Session` owned by `SpotifyApi` is modelled by `ApiState`:
the cookie jar loaded at construction, the header mapping, and the two
JSON blobs extracted from the landing page.  The regex extraction plus
`json.loads` of `_set_session_auth` is abstracted by `HomePage`, whose
fields hold the parse result of the `"session"` and `"config"` script
tags when the corresponding regex matches (`re.search` returns `None`
otherwise).  Network activity is recorded as a trace of `Event`s. -/

/-- Parsed `"session"` blob: the fields `_set_session_auth` and
`_refresh_session_auth` read.  The millisecond expiry is kept as `Nat`. -/
structure SessionInfo where
  accessToken : String
  accessTokenExpirationTimestampMs : Nat
  deriving DecidableEq, Repr

/-- Parsed `"config"` blob; its content is stored but never inspected. -/
structure ConfigInfo where
  raw : Nat
  deriving DecidableEq, Repr

/-- Landing-page content, abstracted to the two optional embedded blobs. -/
structure HomePage where
  sessionBlob : Option SessionInfo
  configBlob : Option ConfigInfo
  deriving DecidableEq, Repr

/-- An HTTP response: status code plus decoded body. -/
structure HttpResponse (α : Type) where
  status_code : Nat
  body : α
  deriving DecidableEq, Repr

/-- The mutable session state of a `SpotifyApi` instance. -/
structure ApiState where
  cookies : List (String × String)
  headers : List (String × String)
  session_info : SessionInfo
  config_info : ConfigInfo
  deriving DecidableEq, Repr

/-- One network-visible action. -/
inductive Event where
  | getHome
  | getUrl (url : String)
  | sleepMs (ms : Nat)
  deriving DecidableEq, Repr

instance exceptDecEq {ε α : Type} [DecidableEq ε] [DecidableEq α] :
    DecidableEq (Except ε α) := fun x y =>
  match x, y with
  | .ok a, .ok b =>
    if h : a = b then .isTrue (by rw [h])
    else .isFalse (by intro hc; cases hc; exact h rfl)
  | .error a, .error b =>
    if h : a = b then .isTrue (by rw [h])
    else .isFalse (by intro hc; cases hc; exact h rfl)
  | .ok _, .error _ => .isFalse (by intro hc; cases hc)
  | .error _, .ok _ => .isFalse (by intro hc; cases hc)

/-- Outcome of running one method: emitted trace, resulting session state
and the returned value or raised exception. -/
structure Step (α : Type) where
  trace : List Event
  state : ApiState
  result : Except PyErr α
  deriving DecidableEq, Repr

/-- Number of network requests in a trace (sleeps are not requests). -/
def netCount (tr : List Event) : Nat :=
  (tr.filter fun e => match e with | .sleepMs _ => false | _ => true).length

/-- `dict.update` for one key of the header mapping: replace in place when
the key exists, append otherwise. -/
def updateHeader (k v : String) (hs : List (String × String)) :
    List (String × String) :=
  if hs.any (fun p => p.1 == k) then
    hs.map (fun p => if p.1 == k then (k, v) else p)
  else hs ++ [(k, v)]

/-- Header lookup. -/
def headerGet (k : String) (hs : List (String × String)) : Option String :=
  (hs.find? (fun p => p.1 == k)).map (·.2)

/-- Modelled from the spec: `check_response` (from `votify.utils`, a file
not present in the provided sources) raises `RemoteRequestFailed` carrying
the status code whenever the response status is not in the 2xx success
range, and passes success responses through untouched. -/
def check_response {α : Type} (r : HttpResponse α) : Except PyErr Unit :=
  if 200 ≤ r.status_code ∧ r.status_code < 300 then .ok ()
  else .error (.remoteRequestFailed r.status_code)

/-- `get_home_page`: one GET of `SPOTIFY_HOME_PAGE_URL`, classified by
`check_response`; returns the page text (abstracted to `HomePage`). -/
def get_home_page (homeResp : HttpResponse HomePage) (st : ApiState) :
    Step HomePage :=
  match check_response homeResp with
  | .ok () => ⟨[.getHome], st, .ok homeResp.body⟩
  | .error e => ⟨[.getHome], st, .error e⟩

/-- `_set_session_auth`: fetch the home page, extract the `"session"` blob
(`re.search(...).group(1)` raises `AttributeError` when the regex finds
nothing, i.e. when the blob is absent), store it, likewise the `"config"`
blob, then install `Authorization: Bearer <accessToken>` in the headers. -/
def set_session_auth (homeResp : HttpResponse HomePage) (st : ApiState) :
    Step Unit :=
  match get_home_page homeResp st with
  | ⟨tr, st1, .error e⟩ => ⟨tr, st1, .error e⟩
  | ⟨tr, st1, .ok page⟩ =>
    match page.sessionBlob with
    | none => ⟨tr, st1, .error (.attributeError ("NoneType object has no attribute group"))⟩
    | some si =>
      let st2 := { st1 with session_info := si }
      match page.configBlob with
      | none => ⟨tr, st2, .error (.attributeError ("NoneType object has no attribute group"))⟩
      | some ci =>
        let st3 := { st2 with config_info := ci }
        let st4 := { st3 with
          headers := updateHeader ("Authorization") ("Bearer " ++ si.accessToken) st3.headers }
        ⟨tr, st4, .ok ()⟩

/-- `_refresh_session_auth`: compare the current time in milliseconds with
the stored expiry; strictly earlier means no-op, otherwise run
`_set_session_auth`. -/
def refresh_session_auth (now : Nat) (homeResp : HttpResponse HomePage)
    (st : ApiState) : Step Unit :=
  let timestamp_session_expire := st.session_info.accessTokenExpirationTimestampMs
  if now < timestamp_session_expire then ⟨[], st, .ok ()⟩
  else set_session_auth homeResp st

/-! ## Resource fetchers

Each fetcher takes the response the remote endpoint would give for its one
request (`resp`), plus the clock and the landing-page response needed by
the renewal precondition, and threads `ApiState`.  Response bodies other
than their pagination structure are opaque (`α`). -/

/-- `METADATA_API_URL.format(type=ty, track_id=id)`. -/
def METADATA_API_URL (ty trackId : String) : String :=
  "https://api.spotify.com/v1/" ++ ty ++ "/" ++ trackId

/-- `GID_METADATA_API_URL.format(gid=gid, media_type=mt)`. -/
def GID_METADATA_API_URL (gid mediaType : String) : String :=
  "https://spclient.wg.spotify.com/metadata/4/" ++ mediaType ++ "/" ++ gid
    ++ "?market=from_token"

/-- `LYRICS_API_URL.format(track_id=id)`. -/
def LYRICS_API_URL (trackId : String) : String :=
  "https://spclient.wg.spotify.com/color-lyrics/v2/track/" ++ trackId

/-- `get_gid_metadata`: refresh, one GET of the gid endpoint, classify,
return the decoded body. -/
def get_gid_metadata {α : Type} (now : Nat) (homeResp : HttpResponse HomePage)
    (resp : HttpResponse α) (gid mediaType : String) (st : ApiState) : Step α :=
  match refresh_session_auth now homeResp st with
  | ⟨tr, st1, .error e⟩ => ⟨tr, st1, .error e⟩
  | ⟨tr, st1, .ok ()⟩ =>
    let tr := tr ++ [.getUrl (GID_METADATA_API_URL gid mediaType)]
    match check_response resp with
    | .error e => ⟨tr, st1, .error e⟩
    | .ok () => ⟨tr, st1, .ok resp.body⟩

/-- `get_lyrics`: refresh, one GET of the lyrics endpoint; a 404 returns
`None` before classification, otherwise classify and return the body. -/
def get_lyrics {α : Type} (now : Nat) (homeResp : HttpResponse HomePage)
    (resp : HttpResponse α) (trackId : String) (st : ApiState) : Step (Option α) :=
  match refresh_session_auth now homeResp st with
  | ⟨tr, st1, .error e⟩ => ⟨tr, st1, .error e⟩
  | ⟨tr, st1, .ok ()⟩ =>
    let tr := tr ++ [.getUrl (LYRICS_API_URL trackId)]
    if resp.status_code = 404 then ⟨tr, st1, .ok none⟩
    else
      match check_response resp with
      | .error e => ⟨tr, st1, .error e⟩
      | .ok () => ⟨tr, st1, .ok (some resp.body)⟩

/-- `get_track`: refresh, one GET of the `tracks` metadata endpoint,
classify, return the decoded body. -/
def get_track {α : Type} (now : Nat) (homeResp : HttpResponse HomePage)
    (resp : HttpResponse α) (trackId : String) (st : ApiState) : Step α :=
  match refresh_session_auth now homeResp st with
  | ⟨tr, st1, .error e⟩ => ⟨tr, st1, .error e⟩
  | ⟨tr, st1, .ok ()⟩ =>
    let tr := tr ++ [.getUrl (METADATA_API_URL ("tracks") trackId)]
    match check_response resp with
    | .error e => ⟨tr, st1, .error e⟩
    | .ok () => ⟨tr, st1, .ok resp.body⟩

/-! ## Collection extender -/

/-- One collection page as the extender sees it: the `"items"` list (items
opaque, modelled as `Nat`) and the `"next"` URL or `None`. -/
structure TrackCollection where
  items : List Nat
  next : Option String
  deriving DecidableEq, Repr

/-- `EXTEND_TRACK_COLLECTION_WAIT_TIME` (0.5 s) in milliseconds. -/
def EXTEND_TRACK_COLLECTION_WAIT_TIME_MS : Nat := 500

/-- Outcome of a full consumption of the extender generator. -/
inductive ExtendOutcome where
  | done
  | failed (e : PyErr)
  | fuelExhausted
  deriving DecidableEq, Repr

/-- Result of consuming the generator: pages yielded in order, the trace of
network activity, and how the iteration ended. -/
structure ExtendRun where
  pages : List TrackCollection
  trace : List Event
  outcome : ExtendOutcome
  deriving DecidableEq, Repr

/-- The `while next_url is not None` loop of `extend_track_collection`,
fully consumed: GET the url, classify (a failure propagates immediately and
ends the iteration), yield the decoded page, advance to its `"next"`, sleep
the fixed interval, repeat.  `fuel` bounds the number of iterations; a
`fuelExhausted` outcome is an artifact of the bounded model only. -/
def extendLoop (server : String → HttpResponse TrackCollection) :
    Option String → Nat → ExtendRun
  | none, _ => ⟨[], [], .done⟩
  | some _, 0 => ⟨[], [], .fuelExhausted⟩
  | some url, fuel + 1 =>
    let response := server url
    match check_response response with
    | .error e => ⟨[], [.getUrl url], .failed e⟩
    | .ok () =>
      let page := response.body
      let rest := extendLoop server page.next fuel
      ⟨page :: rest.pages,
        .getUrl url :: .sleepMs EXTEND_TRACK_COLLECTION_WAIT_TIME_MS :: rest.trace,
        rest.outcome⟩

/-- `extend_track_collection(track_collection, media_type)`: the loop
starts from `track_collection[media_type]["next"]` (the argument here is
already the `media_type` entry of the passed mapping). -/
def extend_track_collection (server : String → HttpResponse TrackCollection)
    (trackCollection : TrackCollection) (fuel : Nat) : ExtendRun :=
  extendLoop server trackCollection.next fuel

/-! ## The album fetcher and its `functools.lru_cache()` -/

/-- An album body: its `"tracks"` paginated collection plus the rest of the
JSON object, opaque. -/
structure Album where
  tracks : TrackCollection
  rest : Nat
  deriving DecidableEq, Repr

/-- `functools.lru_cache()` keys on the tuple of positional arguments.  For
`get_album(self, album_id, extend=True)` on the single `SpotifyApi`
instance that is `(album_id,)` when `extend` is omitted and
`(album_id, extend)` when it is passed; `none` models the omitted
argument. -/
abbrev CacheKey := String × Option Bool

/-- The cache: most-recently-used entry first. -/
abbrev Cache := List (CacheKey × Album)

/-- The default `maxsize` of `functools.lru_cache()`. -/
def LRU_MAXSIZE : Nat := 128

/-- Cached value for a key, if present. -/
def lruFind (k : CacheKey) (c : Cache) : Option Album :=
  (c.find? (fun e => e.1 == k)).map (·.2)

/-- A cache hit moves the entry to the most-recently-used position. -/
def lruTouch (k : CacheKey) (c : Cache) : Cache :=
  match c.find? (fun e => e.1 == k) with
  | some e => e :: c.eraseP (fun x => x.1 == k)
  | none => c

/-- A computed value is inserted at the most-recently-used position; when
the cache exceeds `maxsize`, the least-recently-used entry is dropped. -/
def lruInsert (k : CacheKey) (v : Album) (c : Cache) : Cache :=
  ((k, v) :: c).take LRU_MAXSIZE

/-- The per-call environment of `get_album`: the clock, the landing page
served during a renewal, the album endpoint, the continuation-page
endpoint, and the model fuel for the pagination loop. -/
structure Env where
  now : Nat
  homeResp : HttpResponse HomePage
  albumServer : String → HttpResponse Album
  pageServer : String → HttpResponse TrackCollection
  fuel : Nat

/-- The body of `get_album` (what runs on a cache miss): refresh, one GET
of the `albums` metadata endpoint, classify, decode, and when `extend` is
true append every continuation page's items to `album["tracks"]["items"]`
before returning. -/
def get_album_body (env : Env) (albumId : String) (extend : Bool)
    (st : ApiState) : Step Album :=
  match refresh_session_auth env.now env.homeResp st with
  | ⟨tr, st1, .error e⟩ => ⟨tr, st1, .error e⟩
  | ⟨tr, st1, .ok ()⟩ =>
    let url := METADATA_API_URL ("albums") albumId
    let resp := env.albumServer url
    let tr := tr ++ [.getUrl url]
    match check_response resp with
    | .error e => ⟨tr, st1, .error e⟩
    | .ok () =>
      let album := resp.body
      if extend then
        let run := extend_track_collection env.pageServer album.tracks env.fuel
        match run.outcome with
        | .failed e => ⟨tr ++ run.trace, st1, .error e⟩
        | .fuelExhausted => ⟨tr ++ run.trace, st1, .error .modelFuelExhausted⟩
        | .done =>
          let newItems := (run.pages.map (·.items)).flatten
          ⟨tr ++ run.trace, st1,
            .ok { album with
              tracks := { album.tracks with items := album.tracks.items ++ newItems } }⟩
      else ⟨tr, st1, .ok album⟩

/-- `get_album` under its `functools.lru_cache()` decorator: a hit returns
the stored object with no network activity and refreshes the entry's
recency; a miss runs the body and stores the returned value (exceptions
are not cached).  `extendArg = none` is the call that omits the argument
(the body then uses the default `True`). -/
def get_album (env : Env) (albumId : String) (extendArg : Option Bool)
    (st : ApiState) (cache : Cache) : Step Album × Cache :=
  let key : CacheKey := (albumId, extendArg)
  match lruFind key cache with
  | some v => (⟨[], st, .ok v⟩, lruTouch key cache)
  | none =>
    let s := get_album_body env albumId (extendArg.getD true) st
    match s.result with
    | .ok album => (s, lruInsert key album cache)
    | .error _ => (s, cache)

/-- Per-call record of a `get_album` run: the returned result and the
number of network requests the call issued. -/
structure CallRecord where
  result : Except PyErr Album
  netCalls : Nat
  deriving DecidableEq, Repr

/-- Run a sequence of `get_album` calls, each with its own environment,
threading session state and cache. -/
def runAlbumCalls :
    List (Env × String × Option Bool) → ApiState → Cache →
      List CallRecord × ApiState × Cache
  | [], st, c => ([], st, c)
  | (env, albumId, extendArg) :: rest, st, c =>
    let r := get_album env albumId extendArg st c
    let out := runAlbumCalls rest r.1.state r.2
    (⟨r.1.result, netCount r.1.trace⟩ :: out.1, out.2)


/-! ## Derived notions used by the theorems -/

/-- Total digit value of a charset character (0 for a foreign character). -/
def valOf (cs : List Char) (c : Char) : Nat :=
  (charIdx cs c).getD 0

/-- Canonical character encoding of `v` in base `b` over charset `cs`:
`['0']` for zero, otherwise the divmod digits most-significant first.
`b62encode` and `hexEncode` both compute this (see `b62encode_eq_encChars`
and `hexEncode_eq_encChars`). -/
def encChars (cs : List Char) (b : Nat) (v : Nat) : List Char :=
  if v = 0 then ['0'] else ((digitsRev b v).map (charOf cs)).reverse

/-- The pages and final outcome that `extend_track_collection` is specified
to produce on a finite chain: follow `next` links, stopping cleanly at an
absent `next` and aborting at the first page whose response fails
classification.  The derivation length bounds the number of fetches. -/
inductive YieldsPages (server : String → HttpResponse TrackCollection) :
    Option String → List TrackCollection → Option PyErr → Prop where
  | done : YieldsPages server none [] none
  | fail {url : String} {e : PyErr}
      (h : check_response (server url) = .error e) :
      YieldsPages server (some url) [] (some e)
  | step {url : String} {ps : List TrackCollection} {err : Option PyErr}
      (h : check_response (server url) = .ok ())
      (rest : YieldsPages server (server url).body.next ps err) :
      YieldsPages server (some url) ((server url).body :: ps) err

/-- The keys stored in a cache, most recent first. -/
def cacheKeys (c : Cache) : List CacheKey :=
  c.map (·.1)

/-! ## Concrete fixtures used by witnesses and counterexamples -/

def exSession0 : SessionInfo := ⟨("tok0"), 1000⟩

def exConfig0 : ConfigInfo := ⟨0⟩

def exState0 : ApiState :=
  ⟨[(("cookie"), ("value"))], [(("accept"), ("application/json"))], exSession0, exConfig0⟩

/-- A landing page carrying both blobs, with a token expiring at 5000 ms. -/
def exHomeOk : HttpResponse HomePage := ⟨200, ⟨some ⟨("tok1"), 5000⟩, some ⟨1⟩⟩⟩

/-- A landing page missing both embedded blobs. -/
def exHomeBad : HttpResponse HomePage := ⟨200, ⟨none, none⟩⟩

/-- Three chained pages: the initial collection points at `u2`, `u2` at
`u3`, and `u3` is terminal. -/
def exServer3 : String → HttpResponse TrackCollection := fun u =>
  if u = ("u2") then ⟨200, ⟨[4, 5], some ("u3")⟩⟩ else ⟨200, ⟨[6], none⟩⟩

/-- Same chain but the second continuation URL returns a 500. -/
def exServerFail : String → HttpResponse TrackCollection := fun u =>
  if u = ("u2") then ⟨200, ⟨[4, 5], some ("u3")⟩⟩ else ⟨500, ⟨[], none⟩⟩

def exAlbumServer : String → HttpResponse Album := fun _ => ⟨200, ⟨⟨[], none⟩, 7⟩⟩

/-- An environment in which every album call succeeds without renewal. -/
def exEnv : Env := ⟨500, exHomeOk, exAlbumServer, fun _ => ⟨200, ⟨[], none⟩⟩, 3⟩

/-- 129 pairwise distinct one-character album identifiers. -/
def exKey (i : Nat) : String := String.mk [Char.ofNat (100 + i)]

/-- 130 calls: key 0, then 128 distinct other keys, then key 0 again. -/
def exEvictCalls : List (Env × String × Option Bool) :=
  ((List.range 129).map (fun i => (exEnv, exKey i, some false)))
    ++ [(exEnv, exKey 0, some false)]

/-- A second family of 129 pairwise distinct one-character identifiers. -/
def exKeyB (i : Nat) : String := String.mk [Char.ofNat (300 + i)]

/-- 130 calls over the second key family, repeating its first key last. -/
def exEvictCallsB : List (Env × String × Option Bool) :=
  ((List.range 129).map (fun i => (exEnv, exKeyB i, some false)))
    ++ [(exEnv, exKeyB 0, some false)]

/-- The entry `(k, v)` sits in the cache with at most `j` entries in front
of it, none of which carries the key `k` (so a lookup of `k` finds `v`). -/
def KeyAt (k : CacheKey) (v : Album) (j : Nat) (c : Cache) : Prop :=
  ∃ pre post, c = pre ++ ((k, v) :: post) ∧ pre.length ≤ j ∧ ∀ e ∈ pre, ¬ e.1 = k

/-! Theorems.  General lemmas about the digit machinery. -/

theorem digitsRevFuel_eq_digits (b : Nat) (hb : 2 ≤ b) :
    ∀ (fuel n : Nat), n ≤ fuel → digitsRevFuel b fuel n = Nat.digits b n := by
  intro fuel
  induction fuel with
  | zero =>
    intro n hn
    interval_cases n
    simp [digitsRevFuel]
  | succ fuel ih =>
    intro n hn
    rcases Nat.eq_zero_or_pos n with h0 | hpos
    · subst h0; simp [digitsRevFuel]
    · have hcond : ¬ (n = 0 ∨ b ≤ 1) := by omega
      rw [digitsRevFuel, if_neg hcond]
      have hdiv : n / b < n := Nat.div_lt_self hpos (by omega)
      rw [ih (n / b) (by omega)]
      rw [Nat.digits_def' (by omega : 1 < b) hpos]

theorem digitsRev_eq_digits (b : Nat) (hb : 2 ≤ b) :
    ∀ n, digitsRev b n = Nat.digits b n := fun n =>
  digitsRevFuel_eq_digits b hb n n (Nat.le_refl n)

theorem weightedSum_eq_ofDigits (b l : Nat) :
    ∀ (ds : List Nat) (i : Nat), i + ds.length = l →
      weightedSum b l ds i = Nat.ofDigits b ds.reverse := by
  intro ds
  induction ds with
  | nil => intro i _; simp [weightedSum, Nat.ofDigits]
  | cons d ds ih =>
    intro i hlen
    simp only [weightedSum, List.reverse_cons]
    rw [Nat.ofDigits_append, ih (i + 1) (by simpa [Nat.add_comm, Nat.add_left_comm] using hlen)]
    have hexp : l - (i + 1) = ds.length := by
      simp only [List.length_cons] at hlen; omega
    simp [hexp, Nat.ofDigits, Nat.mul_comm]
    ring

theorem hornerAcc_eq (b : Nat) :
    ∀ (ds : List Nat) (acc : Nat),
      hornerAcc b ds acc = acc * b ^ ds.length + Nat.ofDigits b ds.reverse := by
  intro ds
  induction ds with
  | nil => intro acc; simp [hornerAcc, Nat.ofDigits]
  | cons d ds ih =>
    intro acc
    simp only [hornerAcc, List.reverse_cons]
    rw [ih, Nat.ofDigits_append]
    simp [Nat.ofDigits, Nat.pow_succ]
    ring

theorem hornerAcc_zero_eq_ofDigits (b : Nat) (ds : List Nat) :
    hornerAcc b ds 0 = Nat.ofDigits b ds.reverse := by
  rw [hornerAcc_eq]; simp

/-- `charIdx` produces a sound index. -/
theorem charIdx_sound (cs : List Char) (c : Char) (i : Nat)
    (h : charIdx cs c = some i) : i < cs.length ∧ cs.getD i ' ' = c := by
  induction cs generalizing i with
  | nil => simp [charIdx] at h
  | cons a as ih =>
    rw [charIdx] at h
    by_cases hac : a = c
    · rw [if_pos hac] at h
      cases h
      exact ⟨by simp, by simpa using hac⟩
    · rw [if_neg hac] at h
      rw [Option.map_eq_some'] at h
      obtain ⟨j, hj, hji⟩ := h
      obtain ⟨h1, h2⟩ := ih j hj
      subst hji
      exact ⟨by simpa using h1, by simpa using h2⟩

/-- A charset member has an index. -/
theorem charIdx_mem (cs : List Char) (c : Char) (h : c ∈ cs) :
    ∃ i, charIdx cs c = some i := by
  induction cs with
  | nil => cases h
  | cons a as ih =>
    rw [charIdx]
    by_cases hac : a = c
    · exact ⟨0, by simp [hac]⟩
    · have hmem : c ∈ as := by
        cases h with
        | head => exact absurd rfl hac
        | tail _ h => exact h
      obtain ⟨i, hi⟩ := ih hmem
      exact ⟨i + 1, by simp [hac, hi]⟩

/-- On a duplicate-free charset, the index of the `d`-th character is `d`. -/
theorem charIdx_charOf (cs : List Char) (hnd : cs.Nodup) (d : Nat)
    (hd : d < cs.length) : charIdx cs (charOf cs d) = some d := by
  induction cs generalizing d with
  | nil => simp at hd
  | cons a as ih =>
    rcases d with _ | d
    · simp [charIdx, charOf]
    · have hnd' : as.Nodup := (List.nodup_cons.mp hnd).2
      have hna : a ∉ as := (List.nodup_cons.mp hnd).1
      have hd' : d < as.length := by simpa using hd
      have hoD : charOf as d ∈ as := by
        have : as.getD d ' ' = as[d] := List.getD_eq_getElem?_getD as d ' ' ▸ by
          simp [List.getElem?_eq_getElem hd']
        rw [charOf, this]
        exact List.getElem_mem hd'
      have hne : ¬ (a = as.getD d ' ') := by
        intro hbeq
        exact hna (hbeq ▸ hoD)
      rw [charOf, List.getD_cons_succ, charIdx]
      rw [if_neg hne]
      rw [show as.getD d ' ' = charOf as d from rfl, ih hnd' d hd']
      rfl

/-! ## Charset lemmas -/

theorem valOf_spec (cs : List Char) (c : Char) (h : c ∈ cs) :
    charIdx cs c = some (valOf cs c) := by
  obtain ⟨i, hi⟩ := charIdx_mem cs c h
  rw [valOf, hi]
  rfl

theorem valOf_lt (cs : List Char) (c : Char) (h : c ∈ cs) :
    valOf cs c < cs.length :=
  (charIdx_sound cs c (valOf cs c) (valOf_spec cs c h)).1

theorem charOf_valOf (cs : List Char) (c : Char) (h : c ∈ cs) :
    charOf cs (valOf cs c) = c :=
  (charIdx_sound cs c (valOf cs c) (valOf_spec cs c h)).2

theorem valOf_charOf (cs : List Char) (hnd : cs.Nodup) (d : Nat)
    (hd : d < cs.length) : valOf cs (charOf cs d) = d := by
  rw [valOf, charIdx_charOf cs hnd d hd]
  rfl

theorem charOf_mem (cs : List Char) (d : Nat) (hd : d < cs.length) :
    charOf cs d ∈ cs := by
  have : cs.getD d ' ' = cs[d] := List.getD_eq_getElem?_getD cs d ' ' ▸ by
    simp [List.getElem?_eq_getElem hd]
  rw [charOf, this]
  exact List.getElem_mem hd

theorem valOf_zero (cs : List Char) (h0 : charIdx cs '0' = some 0) :
    valOf cs '0' = 0 := by
  rw [valOf, h0]
  rfl

theorem valOf_eq_zero_iff (cs : List Char) (hnd : cs.Nodup)
    (h0 : charIdx cs '0' = some 0) (c : Char) (hc : c ∈ cs) :
    valOf cs c = 0 ↔ c = '0' := by
  constructor
  · intro hv
    have hgd := (charIdx_sound cs c (valOf cs c) (valOf_spec cs c hc)).2
    have h0d := (charIdx_sound cs '0' 0 h0).2
    rw [hv] at hgd
    rw [← hgd, h0d]
  · intro hc0
    subst hc0
    exact valOf_zero cs h0

/-! ## Digit-list lemmas -/

theorem ofDigits_replicate_zero (b k : Nat) :
    Nat.ofDigits b (List.replicate k 0) = 0 := by
  induction k with
  | zero => simp [Nat.ofDigits]
  | succ k ih => simp [List.replicate_succ, Nat.ofDigits, ih]

theorem ofDigits_append_zeros (b : Nat) (L : List Nat) (k : Nat) :
    Nat.ofDigits b (L ++ List.replicate k 0) = Nat.ofDigits b L := by
  rw [Nat.ofDigits_append, ofDigits_replicate_zero]
  simp

theorem digitsRev_mem_lt (b : Nat) (hb : 2 ≤ b) (v d : Nat)
    (hd : d ∈ digitsRev b v) : d < b := by
  rw [digitsRev_eq_digits b hb] at hd
  exact Nat.digits_lt_base (by omega) hd

theorem encChars_mem (cs : List Char) (b : Nat) (hb : 2 ≤ b)
    (hlen : cs.length = b) (h0 : charIdx cs '0' = some 0) (v : Nat) :
    ∀ c ∈ encChars cs b v, c ∈ cs := by
  intro c hc
  rw [encChars] at hc
  by_cases hv : v = 0
  · rw [if_pos hv] at hc
    simp at hc
    subst hc
    have := (charIdx_sound cs '0' 0 h0).2
    have hlen0 : 0 < cs.length := (charIdx_sound cs '0' 0 h0).1
    rw [← this]
    exact charOf_mem cs 0 hlen0
  · rw [if_neg hv] at hc
    rw [List.mem_reverse, List.mem_map] at hc
    obtain ⟨d, hd, hdc⟩ := hc
    have hdb : d < b := digitsRev_mem_lt b hb v d hd
    rw [← hdc]
    exact charOf_mem cs d (by omega)

/-- Decoding the zero-padded canonical encoding recovers the value. -/
theorem decode_pad_enc (cs : List Char) (b : Nat) (hb : 2 ≤ b)
    (hlen : cs.length = b) (hnd : cs.Nodup) (h0 : charIdx cs '0' = some 0)
    (v k : Nat) :
    Nat.ofDigits b (((List.replicate k '0' ++ encChars cs b v).map (valOf cs)).reverse) = v := by
  rw [List.map_append, List.map_replicate, valOf_zero cs h0]
  by_cases hv : v = 0
  · subst hv
    rw [encChars, if_pos rfl]
    simp only [List.map_cons, List.map_nil, valOf_zero cs h0]
    rw [List.reverse_append]
    simp [Nat.ofDigits, ofDigits_replicate_zero]
  · rw [encChars, if_neg hv, List.map_reverse, List.map_map]
    have hmap : (digitsRev b v).map (valOf cs ∘ charOf cs) = digitsRev b v := by
      rw [show digitsRev b v = (digitsRev b v).map id by simp]
      rw [List.map_map]
      apply List.map_congr_left
      intro d hd
      simp only [Function.comp, id]
      exact valOf_charOf cs hnd d (by
        have := digitsRev_mem_lt b hb v d (by simpa using hd)
        omega)
    rw [hmap, List.reverse_append, List.reverse_reverse, List.reverse_replicate]
    rw [ofDigits_append_zeros]
    rw [digitsRev_eq_digits b hb, Nat.ofDigits_digits]

/-- Any character list splits into a maximal run of `'0'` characters and a
remainder that does not start with `'0'`. -/
theorem zeroSplit (data : List Char) :
    ∃ k core, data = List.replicate k '0' ++ core ∧
      (∀ c rest, core = c :: rest → c ≠ '0') := by
  induction data with
  | nil =>
    refine ⟨0, [], by simp, ?_⟩
    intro c rest h
    cases h
  | cons a as ih =>
    by_cases ha : a = '0'
    · obtain ⟨k, core, heq, hcore⟩ := ih
      refine ⟨k + 1, core, ?_, hcore⟩
      subst ha
      rw [List.replicate_succ, List.cons_append, heq]
    · refine ⟨0, a :: as, by simp, ?_⟩
      intro c rest h
      cases h
      exact ha

/-- Re-encoding the decoded value of a character list, padded back to the
original length, reproduces the list exactly. -/
theorem enc_pad_data (cs : List Char) (b : Nat) (hb : 2 ≤ b)
    (hlen : cs.length = b) (hnd : cs.Nodup) (h0 : charIdx cs '0' = some 0)
    (data : List Char) (hdata : ∀ c ∈ data, c ∈ cs) (hne : data ≠ []) :
    List.replicate (data.length - (encChars cs b (Nat.ofDigits b ((data.map (valOf cs)).reverse))).length) '0'
      ++ encChars cs b (Nat.ofDigits b ((data.map (valOf cs)).reverse)) = data := by
  obtain ⟨k, core, heq, hcore⟩ := zeroSplit data
  have hvmain : (data.map (valOf cs)).reverse =
      (core.map (valOf cs)).reverse ++ List.replicate k 0 := by
    rw [heq, List.map_append, List.reverse_append, List.map_replicate,
      valOf_zero cs h0, List.reverse_replicate]
  have hv : Nat.ofDigits b ((data.map (valOf cs)).reverse) =
      Nat.ofDigits b ((core.map (valOf cs)).reverse) := by
    rw [hvmain, ofDigits_append_zeros]
  rcases hco : core with _ | ⟨c, rest⟩
  · -- the data is entirely zeros
    subst hco
    have hv0 : Nat.ofDigits b ((data.map (valOf cs)).reverse) = 0 := by
      rw [hv]; simp [Nat.ofDigits]
    rw [hv0, encChars, if_pos rfl]
    rw [List.append_nil] at heq
    have hpos : 1 ≤ data.length := by
      cases data with
      | nil => exact absurd rfl hne
      | cons _ _ => simp
    have hrep : List.replicate (data.length - 1) '0' ++ ['0'] =
        List.replicate data.length '0' := by
      rw [← List.replicate_succ']
      congr 1
      omega
    have hdl : data.length = k := by rw [heq]; simp
    rw [List.length_singleton, hrep, hdl, ← heq]
  · -- the significant part is nonempty
    subst hco
    have hsub : ∀ x ∈ c :: rest, x ∈ cs := by
      intro x hx
      exact hdata x (by rw [heq]; exact List.mem_append_right _ hx)
    have hc0 : c ≠ '0' := hcore c rest rfl
    have hvc : valOf cs c ≠ 0 := by
      intro hvz
      exact hc0 ((valOf_eq_zero_iff cs hnd h0 c (hsub c (by simp))).mp hvz)
    have hL : ((c :: rest).map (valOf cs)).reverse =
        (rest.map (valOf cs)).reverse ++ [valOf cs c] := by
      rw [List.map_cons, List.reverse_cons]
    rw [hL] at hv
    have hLlt : ∀ l ∈ (rest.map (valOf cs)).reverse ++ [valOf cs c], l < b := by
      intro l hl
      rw [← hL, List.mem_reverse, List.mem_map] at hl
      obtain ⟨x, hx, hxl⟩ := hl
      rw [← hxl, ← hlen]
      exact valOf_lt cs x (hsub x hx)
    have hLlast : ∀ h : ((rest.map (valOf cs)).reverse ++ [valOf cs c]) ≠ [],
        (((rest.map (valOf cs)).reverse ++ [valOf cs c])).getLast h ≠ 0 := by
      intro h
      rw [List.getLast_concat]
      exact hvc
    have hdig : Nat.digits b (Nat.ofDigits b ((rest.map (valOf cs)).reverse ++ [valOf cs c])) =
        (rest.map (valOf cs)).reverse ++ [valOf cs c] :=
      Nat.digits_ofDigits b (by omega) _ hLlt hLlast
    have hvne : Nat.ofDigits b ((rest.map (valOf cs)).reverse ++ [valOf cs c]) ≠ 0 := by
      intro h0v
      rw [h0v, Nat.digits_zero] at hdig
      exact absurd hdig.symm (by simp)
    have henc : encChars cs b (Nat.ofDigits b ((data.map (valOf cs)).reverse)) = c :: rest := by
      rw [hv, encChars, if_neg hvne, digitsRev_eq_digits b hb, hdig, ← hL]
      rw [List.map_reverse, List.reverse_reverse, List.map_map]
      have hcg : List.map (charOf cs ∘ valOf cs) (c :: rest) = List.map id (c :: rest) := by
        apply List.map_congr_left
        intro x hx
        simp only [Function.comp, id]
        exact charOf_valOf cs x (hsub x hx)
      rw [hcg, List.map_id]
    rw [henc]
    have hlen2 : data.length - (c :: rest).length = k := by
      rw [heq]
      simp
    rw [hlen2, ← heq]

/-! ## Concrete charset facts -/

theorem charset62_nodup : CHARSET_INVERTED.Nodup := by decide

theorem charset62_len : CHARSET_INVERTED.length = 62 := by decide

theorem charset62_zero : charIdx CHARSET_INVERTED '0' = some 0 := by decide

theorem hexchars_nodup : HEX_CHARS.Nodup := by decide

theorem hexchars_len : HEX_CHARS.length = 16 := by decide

theorem hexchars_zero : charIdx HEX_CHARS '0' = some 0 := by decide

/-! ## Decode-side lemmas -/

theorem b62value_ok (c : Char) (h : c ∈ CHARSET_INVERTED) :
    b62value c = .ok (valOf CHARSET_INVERTED c) := by
  rw [b62value, valOf_spec CHARSET_INVERTED c h]

theorem b62value_err (c : Char) (h : ¬ c ∈ CHARSET_INVERTED) :
    b62value c = .error (.valueError ("base62: Invalid character")) := by
  rw [b62value]
  rcases hidx : charIdx CHARSET_INVERTED c with _ | i
  · rfl
  · obtain ⟨_, h2⟩ := charIdx_sound CHARSET_INVERTED c i hidx
    exact absurd (h2 ▸ charOf_mem CHARSET_INVERTED i (charIdx_sound CHARSET_INVERTED c i hidx).1) h

theorem mapM_b62value_ok (l : List Char) (h : ∀ c ∈ l, c ∈ CHARSET_INVERTED) :
    l.mapM b62value = .ok (l.map (valOf CHARSET_INVERTED)) := by
  induction l with
  | nil => rfl
  | cons c cs ih =>
    rw [List.mapM_cons, b62value_ok c (h c (by simp)), ih (fun x hx => h x (by simp [hx]))]
    rfl

theorem mapM_b62value_err (l : List Char) (c : Char) (hc : c ∈ l)
    (h : ¬ c ∈ CHARSET_INVERTED) :
    l.mapM b62value = .error (.valueError ("base62: Invalid character")) := by
  induction l with
  | nil => cases hc
  | cons a as ih =>
    rw [List.mapM_cons]
    by_cases ha : a ∈ CHARSET_INVERTED
    · have hca : c ∈ as := by
        cases hc with
        | head => exact absurd ha h
        | tail _ hc => exact hc
      rw [b62value_ok a ha, ih hca]
      rfl
    · rw [b62value_err a ha]
      rfl

/-- On a character list whose post-strip content is in the charset,
`b62decode` returns the positional value. -/
theorem b62decode_valid (s : String)
    (h : ∀ c ∈ strip0z s.data, c ∈ CHARSET_INVERTED) :
    b62decode s = .ok (Nat.ofDigits 62 (((strip0z s.data).map (valOf CHARSET_INVERTED)).reverse)) := by
  rw [b62decode]
  rw [show (do
    let t : List Char := strip0z s.data
    let vals ← t.mapM b62value
    return weightedSum 62 t.length vals 0 : Except PyErr Nat) =
    ((strip0z s.data).mapM b62value).bind
      (fun vals => .ok (weightedSum 62 (strip0z s.data).length vals 0)) from rfl]
  rw [mapM_b62value_ok (strip0z s.data) h]
  show Except.ok (weightedSum 62 (strip0z s.data).length ((strip0z s.data).map (valOf CHARSET_INVERTED)) 0) = _
  rw [weightedSum_eq_ofDigits 62 (strip0z s.data).length ((strip0z s.data).map (valOf CHARSET_INVERTED)) 0 (by simp)]

theorem b62decode_err (s : String) (c : Char) (hc : c ∈ strip0z s.data)
    (h : ¬ c ∈ CHARSET_INVERTED) :
    b62decode s = .error (.valueError ("base62: Invalid character")) := by
  rw [b62decode]
  rw [show (do
    let t : List Char := strip0z s.data
    let vals ← t.mapM b62value
    return weightedSum 62 t.length vals 0 : Except PyErr Nat) =
    ((strip0z s.data).mapM b62value).bind
      (fun vals => .ok (weightedSum 62 (strip0z s.data).length vals 0)) from rfl]
  rw [mapM_b62value_err (strip0z s.data) c hc h]
  rfl

theorem strip0z_eq_self (l : List Char) (h : ∀ rest, l ≠ '0' :: 'z' :: rest) :
    strip0z l = l := by
  rcases l with _ | ⟨a, _ | ⟨b, rest⟩⟩
  · rfl
  · rfl
  · rw [strip0z]
    rw [if_neg]
    rintro ⟨ha, hb⟩
    subst ha; subst hb
    exact h rest rfl

theorem mem_strip0z (l : List Char) (c : Char) (hc : c ∈ l)
    (h0 : c ≠ '0') (hz : c ≠ 'z') : c ∈ strip0z l := by
  rcases l with _ | ⟨a, _ | ⟨b, rest⟩⟩
  · cases hc
  · exact hc
  · rw [strip0z]
    by_cases hab : a = '0' ∧ b = 'z'
    · rw [if_pos hab]
      cases hc with
      | head => exact absurd hab.1 h0
      | tail _ hc2 =>
        cases hc2 with
        | head => exact absurd hab.2 hz
        | tail _ hc3 => exact hc3
    · rw [if_neg hab]
      exact hc

theorem strip0z_subset (l : List Char) (c : Char) (hc : c ∈ strip0z l) : c ∈ l := by
  rcases l with _ | ⟨a, _ | ⟨b, rest⟩⟩
  · exact hc
  · exact hc
  · rw [strip0z] at hc
    by_cases hab : a = '0' ∧ b = 'z'
    · rw [if_pos hab] at hc
      exact List.mem_cons_of_mem _ (List.mem_cons_of_mem _ hc)
    · rw [if_neg hab] at hc
      exact hc

/-! ## Parse-side lemmas for `int(s, 16)` -/

theorem dropWhile_all_false {α : Type} (p : α → Bool) (l : List α)
    (h : ∀ c ∈ l, p c = false) : l.dropWhile p = l := by
  cases l with
  | nil => rfl
  | cons a as =>
    rw [List.dropWhile_cons_of_neg]
    rw [h a (by simp)]
    simp

theorem pySignSplit_id (l : List Char)
    (h : ∀ x rest, l = x :: rest → x ≠ '+' ∧ x ≠ '-') :
    pySignSplit l = (1, l) := by
  rcases l with _ | ⟨a, rest⟩
  · rfl
  · obtain ⟨hp, hm⟩ := h a rest rfl
    rw [pySignSplit, if_neg hp, if_neg hm]

theorem pyPrefixSplit_id (l : List Char)
    (h : ∀ x rest, l = '0' :: x :: rest → x ≠ 'x' ∧ x ≠ 'X') :
    pyPrefixSplit l = (false, l) := by
  rcases l with _ | ⟨a, _ | ⟨b, rest⟩⟩
  · rfl
  · rfl
  · rw [pyPrefixSplit, if_neg]
    rintro ⟨ha, hb⟩
    subst ha
    obtain ⟨hx, hX⟩ := h b rest rfl
    cases hb with
    | inl hb => exact hx hb
    | inr hb => exact hX hb

theorem hexVal_ok (c : Char) (h : c ∈ HEX_CHARS) :
    hexVal c = some (valOf HEX_CHARS c) := by
  rw [hexVal, valOf_spec HEX_CHARS c h]

theorem hexScan_digits (l : List Char) :
    ∀ (acc : Nat) (canUnder seen : Bool), l ≠ [] →
      (∀ c ∈ l, c ∈ HEX_CHARS) →
      hexScan l acc canUnder seen =
        some (hornerAcc 16 (l.map (valOf HEX_CHARS)) acc) := by
  induction l with
  | nil => intro _ _ _ hne _; exact absurd rfl hne
  | cons c rest ih =>
    intro acc canUnder seen _ hmem
    have hc : c ∈ HEX_CHARS := hmem c (by simp)
    have hcu : ¬ (c = '_') := by
      intro hc'
      subst hc'
      revert hc
      decide
    rw [hexScan, if_neg hcu, hexVal_ok c hc]
    rcases rest with _ | ⟨d, rest2⟩
    · rfl
    · exact ih (acc * 16 + valOf HEX_CHARS c) true true (by simp)
        (fun x hx => hmem x (by simp [hx]))

theorem hexchars_not_space : ∀ c ∈ HEX_CHARS, isPySpace c = false := by decide

/-- `int(s, 16)` on a nonempty all-lowercase-hex character list returns its
positional value. -/
theorem pyIntHex_hexchars (l : List Char) (hne : l ≠ [])
    (h : ∀ c ∈ l, c ∈ HEX_CHARS) :
    pyIntHex (String.mk l) =
      .ok ((Nat.ofDigits 16 ((l.map (valOf HEX_CHARS)).reverse) : Nat) : Int) := by
  have hdata : (String.mk l).data = l := rfl
  have hws1 : l.dropWhile isPySpace = l :=
    dropWhile_all_false isPySpace l (fun c hc => hexchars_not_space c (h c hc))
  have hws2 : l.reverse.dropWhile isPySpace = l.reverse :=
    dropWhile_all_false isPySpace l.reverse
      (fun c hc => hexchars_not_space c (h c (List.mem_reverse.mp hc)))
  have hsign : pySignSplit l = (1, l) := by
    apply pySignSplit_id
    intro x rest heq
    have hx : x ∈ HEX_CHARS := h x (by rw [heq]; simp)
    constructor
    · intro hx'; subst hx'; revert hx; decide
    · intro hx'; subst hx'; revert hx; decide
  have hpre : pyPrefixSplit l = (false, l) := by
    apply pyPrefixSplit_id
    intro x rest heq
    have hx : x ∈ HEX_CHARS := h x (by rw [heq]; simp)
    constructor
    · intro hx'; subst hx'; revert hx; decide
    · intro hx'; subst hx'; revert hx; decide
  rw [pyIntHex, hdata, hws1, hws2, List.reverse_reverse, hsign, hpre]
  show (match hexScan l 0 false false with
    | some v => Except.ok ((1 : Int) * (v : Int))
    | none => Except.error (PyErr.valueError ("invalid literal for int() with base 16"))) = _
  rw [hexScan_digits l 0 false false hne h]
  rw [hornerAcc_zero_eq_ofDigits]
  norm_num

/-! ## Encoder bridges -/

theorem digitsRev_nil_iff (b : Nat) (hb : 2 ≤ b) (n : Nat) :
    digitsRev b n = [] ↔ n = 0 := by
  rw [digitsRev_eq_digits b hb]
  constructor
  · intro h
    by_contra hn
    rw [Nat.digits_def' (by omega : 1 < b) (Nat.pos_of_ne_zero hn)] at h
    cases h
  · intro h; subst h; simp

theorem b62encode_eq_encChars (n : Int) :
    b62encode n = String.mk (encChars CHARSET_INVERTED 62 n.toNat) := by
  rw [b62encode, encChars]
  by_cases hn : 0 < n
  · have htn : ¬ (n.toNat = 0) := by
      intro h
      omega
    rw [if_pos hn, if_neg htn]
    have hne : ¬ ((digitsRev 62 n.toNat).map (charOf CHARSET_INVERTED)).isEmpty := by
      rw [List.isEmpty_iff, List.map_eq_nil_iff, digitsRev_nil_iff 62 (by omega)]
      exact htn
    rw [if_neg hne]
  · have htn : n.toNat = 0 := by omega
    rw [if_neg hn, htn, if_pos rfl]
    rfl

theorem hexEncode_eq_encChars (v : Nat) :
    hexEncode v = String.mk (encChars HEX_CHARS 16 v) := by
  rw [hexEncode, encChars]
  by_cases hv : v = 0
  · rw [if_pos hv, if_pos hv]
  · rw [if_neg hv, if_neg hv]

/-! ## Transcoder assembly lemmas -/

theorem media_id_to_gid_def (s : String) :
    media_id_to_gid s = (b62decode s).bind (fun v => .ok (zfill 32 (hexEncode v))) := rfl

theorem gid_to_media_id_def (s : String) :
    gid_to_media_id s = (pyIntHex s).bind (fun v => .ok (zfill 22 (b62encode v))) := rfl

theorem stringMk_data (s : String) : String.mk s.data = s := rfl

theorem zfill_data (w : Nat) (l : List Char) :
    (zfill w (String.mk l)).data = List.replicate (w - l.length) '0' ++ l := rfl

theorem encChars_ne_nil (cs : List Char) (b : Nat) (hb : 2 ≤ b) (v : Nat) :
    encChars cs b v ≠ [] := by
  rw [encChars]
  by_cases hv : v = 0
  · rw [if_pos hv]; simp
  · rw [if_neg hv]
    intro h
    rw [List.reverse_eq_nil_iff, List.map_eq_nil_iff, digitsRev_nil_iff b hb] at h
    exact hv h

theorem replicate_append_mem_hex (k : Nat) (v : Nat) :
    ∀ c ∈ List.replicate k '0' ++ encChars HEX_CHARS 16 v, c ∈ HEX_CHARS := by
  intro c hc
  rcases List.mem_append.mp hc with h | h
  · rw [List.eq_of_mem_replicate h]
    decide
  · exact encChars_mem HEX_CHARS 16 (by omega) hexchars_len hexchars_zero v c h

theorem replicate_append_mem_b62 (k : Nat) (v : Nat) :
    ∀ c ∈ List.replicate k '0' ++ encChars CHARSET_INVERTED 62 v, c ∈ CHARSET_INVERTED := by
  intro c hc
  rcases List.mem_append.mp hc with h | h
  · rw [List.eq_of_mem_replicate h]
    decide
  · exact encChars_mem CHARSET_INVERTED 62 (by omega) charset62_len charset62_zero v c h

/-- The composite `gid → media id` output on a natural value. -/
theorem gid_of_nat_value (v : Nat) :
    zfill 22 (b62encode ((v : Nat) : Int)) =
      String.mk (List.replicate (22 - (encChars CHARSET_INVERTED 62 v).length) '0'
        ++ encChars CHARSET_INVERTED 62 v) := by
  rw [b62encode_eq_encChars]
  rw [show ((v : Nat) : Int).toNat = v from Int.toNat_natCast v]
  exact congrArg String.mk (zfill_data 22 (encChars CHARSET_INVERTED 62 v))

/-- The composite `media id → gid` output on a natural value. -/
theorem gidString_of_nat_value (v : Nat) :
    zfill 32 (hexEncode v) =
      String.mk (List.replicate (32 - (encChars HEX_CHARS 16 v).length) '0'
        ++ encChars HEX_CHARS 16 v) := by
  rw [hexEncode_eq_encChars]
  exact congrArg String.mk (zfill_data 32 (encChars HEX_CHARS 16 v))

/-- Parsing the zero-padded hexadecimal rendering of `v` recovers `v`. -/
theorem pyIntHex_pad_hex (v k : Nat) :
    pyIntHex (String.mk (List.replicate k '0' ++ encChars HEX_CHARS 16 v)) =
      .ok ((v : Nat) : Int) := by
  rw [pyIntHex_hexchars _ (by
      intro h
      exact encChars_ne_nil HEX_CHARS 16 (by omega) v (List.append_eq_nil.mp h).2)
    (replicate_append_mem_hex k v)]
  rw [decode_pad_enc HEX_CHARS 16 (by omega) hexchars_len hexchars_nodup hexchars_zero v k]

/-! ## Claim C2 -/

theorem b62decode_bind (s : String) :
    b62decode s = ((strip0z s.data).mapM b62value).bind
      (fun vals => .ok (weightedSum 62 (strip0z s.data).length vals 0)) := rfl

/-- `_value` raises only `ValueError`, so `mapM` over it either succeeds or
fails with exactly that exception. -/
theorem mapM_b62value_shape (l : List Char) :
    (∃ vals, l.mapM b62value = .ok vals)
    ∨ l.mapM b62value = .error (.valueError ("base62: Invalid character")) := by
  induction l with
  | nil => exact Or.inl ⟨[], rfl⟩
  | cons c cs ih =>
    rw [List.mapM_cons]
    cases hv : b62value c with
    | error e =>
      have he : e = .valueError ("base62: Invalid character") := by
        rw [b62value] at hv
        rcases hidx : charIdx CHARSET_INVERTED c with _ | i
        · rw [hidx] at hv
          cases hv
          rfl
        · rw [hidx] at hv
          cases hv
      subst he
      exact Or.inr rfl
    | ok v =>
      rcases ih with ⟨vals, hva⟩ | herr
      · exact Or.inl ⟨v :: vals, by rw [hva]; rfl⟩
      · exact Or.inr (by rw [herr]; rfl)

/-- `base62.decode` either succeeds or raises its `ValueError`; it can
raise nothing else. -/
theorem b62decode_shape (s : String) :
    (∃ v, b62decode s = .ok v)
    ∨ b62decode s = .error (.valueError ("base62: Invalid character")) := by
  rw [b62decode_bind]
  rcases mapM_b62value_shape (strip0z s.data) with ⟨vals, hva⟩ | herr
  · exact Or.inl ⟨_, by rw [hva]; rfl⟩
  · exact Or.inr (by rw [herr]; rfl)

/-- C2, counterexample: the claim "every malformed input fails" is false on
the code.  A 22-character input of `'Z'`s decodes to `62^22 - 1`, which
exceeds 128 bits, yet `media_id_to_gid` succeeds and returns a 33-character
hexadecimal string (`zfill(32)` pads but never truncates); and `"+1f"`
contains a character outside the hexadecimal alphabet yet
`gid_to_media_id` succeeds, because Python `int(s, 16)` accepts an
optional sign. -/
theorem C2_counterexample :
    b62decode (String.mk (List.replicate 22 'Z')) = .ok (62 ^ 22 - 1)
    ∧ 2 ^ 128 < 62 ^ 22 - 1
    ∧ media_id_to_gid (String.mk (List.replicate 22 'Z')) =
        .ok ("7f520034c430770c424528c66503fffff")
    ∧ (("7f520034c430770c424528c66503fffff") : String).data.length = 33
    ∧ gid_to_media_id ("+1f") = .ok ("000000000000000000000v") :=
  ⟨by rfl, by norm_num, by rfl, by rfl, by rfl⟩

/-- C2 (amended): a character outside the base-62 alphabet makes
`media_id_to_gid` fail with the (untyped, builtin) `ValueError` raised by
`base62._value` — not with a dedicated `InvalidIdentifier` condition; an
input entirely inside the alphabet always succeeds, regardless of how
large its value is; each transcoder direction either succeeds or fails
with `ValueError` and can raise nothing else; and in particular neither
direction can ever produce the specification's named `InvalidIdentifier`
condition, on any input. -/
theorem C2_transcoder_error_behavior :
    (∀ (s : String) (c : Char), c ∈ s.data → c ∉ CHARSET_INVERTED →
      media_id_to_gid s = .error (.valueError ("base62: Invalid character")))
    ∧ (∀ s : String, (∀ c ∈ s.data, c ∈ CHARSET_INVERTED) →
      ∃ g, media_id_to_gid s = .ok g)
    ∧ (∀ s : String, (∃ g, media_id_to_gid s = .ok g) ∨
      (∃ msg, media_id_to_gid s = .error (.valueError msg)))
    ∧ (∀ s : String, (∃ m, gid_to_media_id s = .ok m) ∨
      (∃ msg, gid_to_media_id s = .error (.valueError msg)))
    ∧ (∀ s : String, ¬ media_id_to_gid s = .error .invalidIdentifier
      ∧ ¬ gid_to_media_id s = .error .invalidIdentifier) := by
  have hmedia : ∀ s : String, (∃ g, media_id_to_gid s = .ok g) ∨
      (∃ msg, media_id_to_gid s = .error (.valueError msg)) := by
    intro s
    rcases b62decode_shape s with ⟨v, hv⟩ | herr
    · exact Or.inl ⟨_, by rw [media_id_to_gid_def, hv]; rfl⟩
    · exact Or.inr ⟨_, by rw [media_id_to_gid_def, herr]; rfl⟩
  have hgid : ∀ s : String, (∃ m, gid_to_media_id s = .ok m) ∨
      (∃ msg, gid_to_media_id s = .error (.valueError msg)) := by
    intro s
    rw [gid_to_media_id_def, pyIntHex]
    rcases hscan : hexScan (pyPrefixSplit (pySignSplit
        (((s.data.dropWhile isPySpace).reverse.dropWhile isPySpace).reverse)).2).2 0
        (pyPrefixSplit (pySignSplit
        (((s.data.dropWhile isPySpace).reverse.dropWhile isPySpace).reverse)).2).1 false with
      _ | v
    · right
      refine ⟨("invalid literal for int() with base 16"), ?_⟩
      simp only [hscan]
      rfl
    · left
      exact ⟨_, by simp only [hscan]; rfl⟩
  refine ⟨?_, ?_, hmedia, hgid, ?_⟩
  · intro s c hc hnc
    have h0 : c ≠ '0' := by
      intro h; subst h; exact hnc (by decide)
    have hz : c ≠ 'z' := by
      intro h; subst h; exact hnc (by decide)
    rw [media_id_to_gid_def,
      b62decode_err s c (mem_strip0z s.data c hc h0 hz) hnc]
    rfl
  · intro s h
    rw [media_id_to_gid_def,
      b62decode_valid s (fun c hc => h c (strip0z_subset s.data c hc))]
    exact ⟨_, rfl⟩
  · intro s
    constructor
    · intro hbad
      rcases hmedia s with ⟨g, hg⟩ | ⟨msg, hmsg⟩
      · rw [hg] at hbad
        cases hbad
      · rw [hmsg] at hbad
        simp at hbad
    · intro hbad
      rcases hgid s with ⟨m, hm⟩ | ⟨msg, hmsg⟩
      · rw [hm] at hbad
        cases hbad
      · rw [hmsg] at hbad
        simp at hbad

/-- Witness for `C2_transcoder_error_behavior` at concrete inputs. -/
theorem C2_transcoder_error_behavior_witness :
    media_id_to_gid ("a!") = .error (.valueError ("base62: Invalid character"))
    ∧ (∃ g, media_id_to_gid ("1f") = .ok g)
    ∧ ((∃ g, media_id_to_gid ("x9") = .ok g) ∨
      (∃ msg, media_id_to_gid ("x9") = .error (.valueError msg)))
    ∧ ((∃ m, gid_to_media_id ("zz") = .ok m) ∨
      (∃ msg, gid_to_media_id ("zz") = .error (.valueError msg)))
    ∧ (¬ media_id_to_gid ("q7") = .error .invalidIdentifier
      ∧ ¬ gid_to_media_id ("q7") = .error .invalidIdentifier) :=
  ⟨C2_transcoder_error_behavior.1 ("a!") '!' (by decide) (by decide),
   C2_transcoder_error_behavior.2.1 ("1f") (by decide),
   C2_transcoder_error_behavior.2.2.1 ("x9"),
   C2_transcoder_error_behavior.2.2.2.1 ("zz"),
   C2_transcoder_error_behavior.2.2.2.2 ("q7")⟩

/-! ## Claim C3 -/

/-- C3, counterexample: the round-trip fails on the claimed domain.
`"1"` is a valid non-empty base-62 public identifier whose value fits in
128 bits, but `to_public(to_internal("1"))` is the 22-character zero-padded
form, not `"1"`.  Moreover even inside the fixed-width forms the decoder's
literal `"0z"` prefix stripping breaks both directions:
`"0z00000000000000000000"` (22 valid characters) decodes as if the first
two characters were absent, and the valid 32-character internal identifier
`"128c5878a2d76075ee7b8e990a300000"` encodes to exactly that public form,
so its round trip returns the zero identifier instead. -/
theorem C3_counterexample :
    (media_id_to_gid ("1") = .ok ("00000000000000000000000000000001")
      ∧ gid_to_media_id ("00000000000000000000000000000001") =
          .ok ("0000000000000000000001")
      ∧ ("0000000000000000000001" : String) ≠ ("1" : String))
    ∧ (gid_to_media_id ("128c5878a2d76075ee7b8e990a300000") =
          .ok ("0z00000000000000000000")
      ∧ media_id_to_gid ("0z00000000000000000000") =
          .ok (String.mk (List.replicate 32 '0'))
      ∧ String.mk (List.replicate 32 '0') ≠ ("128c5878a2d76075ee7b8e990a300000" : String)) :=
  ⟨⟨by rfl, by rfl, by decide⟩, ⟨by rfl, by rfl, by decide⟩⟩

/-- C3 (amended): the transcoders are mutually inverse on the fixed-width
domains, away from the decoder's `"0z"` stripping quirk: every 22-character
base-62 public identifier that does not begin with the literal `"0z"`
round-trips through `media_id_to_gid` and back, and every 32-character
lowercase-hexadecimal internal identifier round-trips through
`gid_to_media_id` and back provided the produced public identifier does
not begin with `"0z"`. -/
theorem C3_roundtrip :
    (∀ p : String, p.data.length = 22 → (∀ c ∈ p.data, c ∈ CHARSET_INVERTED) →
      (∀ rest, p.data ≠ '0' :: 'z' :: rest) →
      ∃ g, media_id_to_gid p = .ok g ∧ gid_to_media_id g = .ok p)
    ∧ (∀ i : String, i.data.length = 32 → (∀ c ∈ i.data, c ∈ HEX_CHARS) →
      ∃ m, gid_to_media_id i = .ok m ∧
        ((∀ rest, m.data ≠ '0' :: 'z' :: rest) → media_id_to_gid m = .ok i)) := by
  constructor
  · intro p hlen hmem h0z
    have hstrip : strip0z p.data = p.data := strip0z_eq_self p.data h0z
    have hdec : b62decode p =
        .ok (Nat.ofDigits 62 ((p.data.map (valOf CHARSET_INVERTED)).reverse)) := by
      rw [b62decode_valid p (by rw [hstrip]; exact hmem), hstrip]
    refine ⟨_, by rw [media_id_to_gid_def, hdec]; rfl, ?_⟩
    rw [gidString_of_nat_value, gid_to_media_id_def]
    rw [pyIntHex_pad_hex]
    show Except.ok (zfill 22 (b62encode _)) = Except.ok p
    rw [gid_of_nat_value]
    have hpad := enc_pad_data CHARSET_INVERTED 62 (by omega) charset62_len
      charset62_nodup charset62_zero p.data hmem
      (by intro h; rw [h] at hlen; cases hlen)
    rw [← hlen, hpad, stringMk_data]
  · intro i hlen hmem
    have hne : i.data ≠ [] := by
      intro h; rw [h] at hlen; cases hlen
    have hparse : pyIntHex i =
        .ok ((Nat.ofDigits 16 ((i.data.map (valOf HEX_CHARS)).reverse) : Nat) : Int) :=
      pyIntHex_hexchars i.data hne hmem
    refine ⟨_, by rw [gid_to_media_id_def, hparse]; rfl, ?_⟩
    rw [gid_of_nat_value]
    intro h0z
    have hstrip : strip0z (String.mk (List.replicate
        (22 - (encChars CHARSET_INVERTED 62
          (Nat.ofDigits 16 ((i.data.map (valOf HEX_CHARS)).reverse))).length) '0'
        ++ encChars CHARSET_INVERTED 62
          (Nat.ofDigits 16 ((i.data.map (valOf HEX_CHARS)).reverse)))).data =
        (List.replicate
        (22 - (encChars CHARSET_INVERTED 62
          (Nat.ofDigits 16 ((i.data.map (valOf HEX_CHARS)).reverse))).length) '0'
        ++ encChars CHARSET_INVERTED 62
          (Nat.ofDigits 16 ((i.data.map (valOf HEX_CHARS)).reverse))) :=
      strip0z_eq_self _ h0z
    have hdec : b62decode (String.mk (List.replicate
        (22 - (encChars CHARSET_INVERTED 62
          (Nat.ofDigits 16 ((i.data.map (valOf HEX_CHARS)).reverse))).length) '0'
        ++ encChars CHARSET_INVERTED 62
          (Nat.ofDigits 16 ((i.data.map (valOf HEX_CHARS)).reverse)))) =
        .ok (Nat.ofDigits 16 ((i.data.map (valOf HEX_CHARS)).reverse)) := by
      rw [b62decode_valid _ (by
        rw [hstrip]
        exact replicate_append_mem_b62 _ _), hstrip]
      rw [decode_pad_enc CHARSET_INVERTED 62 (by omega) charset62_len
        charset62_nodup charset62_zero]
    rw [media_id_to_gid_def, hdec]
    show Except.ok (zfill 32 (hexEncode _)) = Except.ok i
    rw [gidString_of_nat_value]
    have hpad := enc_pad_data HEX_CHARS 16 (by omega) hexchars_len
      hexchars_nodup hexchars_zero i.data hmem hne
    rw [← hlen, hpad, stringMk_data]

/-- Witness for `C3_roundtrip` at concrete identifiers. -/
theorem C3_roundtrip_witness :
    (∃ g, media_id_to_gid ("4cOdK2wGLETKBW3PvgPWqT") = .ok g
      ∧ gid_to_media_id g = .ok ("4cOdK2wGLETKBW3PvgPWqT"))
    ∧ (∃ m, gid_to_media_id ("6f1a2b3c4d5e6f708192a3b4c5d6e7f8") = .ok m
      ∧ ((∀ rest, m.data ≠ '0' :: 'z' :: rest) →
        media_id_to_gid m = .ok ("6f1a2b3c4d5e6f708192a3b4c5d6e7f8"))) :=
  ⟨C3_roundtrip.1 ("4cOdK2wGLETKBW3PvgPWqT") (by decide) (by decide)
    (by intro rest h; cases h),
   C3_roundtrip.2 ("6f1a2b3c4d5e6f708192a3b4c5d6e7f8") (by decide) (by decide)⟩

/-! ## Session lemmas -/

/-- Exhaustive description of `_set_session_auth`. -/
theorem set_session_auth_cases (home : HttpResponse HomePage) (st : ApiState) :
    set_session_auth home st =
      match check_response home with
      | .error e => ⟨[.getHome], st, .error e⟩
      | .ok () =>
        match home.body.sessionBlob with
        | none => ⟨[.getHome], st,
            .error (.attributeError ("NoneType object has no attribute group"))⟩
        | some si =>
          match home.body.configBlob with
          | none => ⟨[.getHome], { st with session_info := si },
              .error (.attributeError ("NoneType object has no attribute group"))⟩
          | some ci => ⟨[.getHome],
              { st with
                  session_info := si
                  config_info := ci
                  headers := updateHeader ("Authorization")
                    ("Bearer " ++ si.accessToken) st.headers },
              .ok ()⟩ := by
  cases hcr : check_response home with
  | error e => simp only [set_session_auth, get_home_page, hcr]
  | ok u =>
    cases u
    cases hsb : home.body.sessionBlob with
    | none => simp only [set_session_auth, get_home_page, hcr, hsb]
    | some si =>
      cases hcb : home.body.configBlob with
      | none => simp only [set_session_auth, get_home_page, hcr, hsb, hcb]
      | some ci => simp only [set_session_auth, get_home_page, hcr, hsb, hcb]

theorem set_session_auth_trace (home : HttpResponse HomePage) (st : ApiState) :
    (set_session_auth home st).trace = [.getHome] := by
  rw [set_session_auth_cases]
  cases check_response home with
  | error e => rfl
  | ok u =>
    cases u
    cases home.body.sessionBlob with
    | none => rfl
    | some si =>
      cases home.body.configBlob with
      | none => rfl
      | some ci => rfl

theorem refresh_fresh (now : Nat) (home : HttpResponse HomePage) (st : ApiState)
    (h : now < st.session_info.accessTokenExpirationTimestampMs) :
    refresh_session_auth now home st = ⟨[], st, .ok ()⟩ := by
  rw [refresh_session_auth, if_pos h]

theorem refresh_expired (now : Nat) (home : HttpResponse HomePage) (st : ApiState)
    (h : st.session_info.accessTokenExpirationTimestampMs ≤ now) :
    refresh_session_auth now home st = set_session_auth home st := by
  rw [refresh_session_auth, if_neg (by omega)]

theorem check_response_ok {α : Type} (r : HttpResponse α)
    (h1 : 200 ≤ r.status_code) (h2 : r.status_code < 300) :
    check_response r = .ok () := by
  rw [check_response, if_pos ⟨h1, h2⟩]

theorem check_response_fail {α : Type} (r : HttpResponse α)
    (h : ¬ (200 ≤ r.status_code ∧ r.status_code < 300)) :
    check_response r = .error (.remoteRequestFailed r.status_code) := by
  rw [check_response, if_neg h]

/-- `_set_session_auth` on a well-formed landing page. -/
theorem set_session_auth_ok (home : HttpResponse HomePage) (st : ApiState)
    (si : SessionInfo) (ci : ConfigInfo)
    (h1 : 200 ≤ home.status_code) (h2 : home.status_code < 300)
    (hsb : home.body.sessionBlob = some si) (hcb : home.body.configBlob = some ci) :
    set_session_auth home st = ⟨[.getHome],
      { st with
          session_info := si
          config_info := ci
          headers := updateHeader ("Authorization")
            ("Bearer " ++ si.accessToken) st.headers },
      .ok ()⟩ := by
  rw [set_session_auth_cases, check_response_ok home h1 h2, hsb, hcb]

/-- When `_set_session_auth` succeeds, both blobs were present and the
stored session info is the fresh one. -/
theorem set_session_auth_ok_inv (home : HttpResponse HomePage) (st : ApiState)
    (h : (set_session_auth home st).result = .ok ()) :
    ∃ si ci, home.body.sessionBlob = some si ∧ home.body.configBlob = some ci ∧
      (set_session_auth home st).state.session_info = si := by
  rw [set_session_auth_cases] at h ⊢
  cases hcr : check_response home with
  | error e => rw [hcr] at h; cases h
  | ok u =>
    cases u
    cases hsb : home.body.sessionBlob with
    | none => rw [hcr, hsb] at h; cases h
    | some si =>
      cases hcb : home.body.configBlob with
      | none => rw [hcr, hsb, hcb] at h; cases h
      | some ci =>
        exact ⟨si, ci, rfl, rfl, rfl⟩

/-! ## Header-frame lemmas -/

theorem headerGet_cons_hit (k b : String) (a : String) (hs : List (String × String))
    (hab : a = k) : headerGet k ((a, b) :: hs) = some b := by
  simp [headerGet, List.find?_cons, hab]

theorem headerGet_cons_miss (k b : String) (a : String) (hs : List (String × String))
    (hab : ¬ a = k) : headerGet k ((a, b) :: hs) = headerGet k hs := by
  simp only [headerGet, List.find?_cons]
  have : ((a, b).1 == k) = false := by
    simpa using hab
  rw [this]

theorem headerGet_map_replace (k kk v : String) (h : k ≠ kk) :
    ∀ hs : List (String × String),
      headerGet k (hs.map (fun p => if p.1 == kk then (kk, v) else p)) =
        headerGet k hs := by
  intro hs
  induction hs with
  | nil => rfl
  | cons a as ih =>
    rw [List.map_cons]
    by_cases hak : a.1 = kk
    · rw [if_pos (beq_iff_eq.mpr hak)]
      rw [headerGet_cons_miss k v kk _ (fun hkk => h (hkk ▸ rfl))]
      rw [ih]
      rw [show (a : String × String) = (a.1, a.2) from rfl,
        headerGet_cons_miss k a.2 a.1 as (by rw [hak]; exact fun hkk => h (hkk ▸ rfl))]
    · rw [if_neg (by simpa using hak)]
      by_cases hae : a.1 = k
      · rw [show (a : String × String) = (a.1, a.2) from rfl,
          headerGet_cons_hit k a.2 a.1 _ hae, headerGet_cons_hit k a.2 a.1 as hae]
      · rw [show (a : String × String) = (a.1, a.2) from rfl,
          headerGet_cons_miss k a.2 a.1 _ hae, headerGet_cons_miss k a.2 a.1 as hae]
        exact ih

theorem headerGet_append_single (k kk v : String) (h : k ≠ kk) :
    ∀ hs : List (String × String),
      headerGet k (hs ++ [(kk, v)]) = headerGet k hs := by
  intro hs
  induction hs with
  | nil =>
    rw [List.nil_append]
    rw [headerGet_cons_miss k v kk [] (fun hkk => h (hkk ▸ rfl))]
  | cons a as ih =>
    rw [List.cons_append]
    by_cases hae : a.1 = k
    · rw [show (a : String × String) = (a.1, a.2) from rfl,
        headerGet_cons_hit k a.2 a.1 _ hae, headerGet_cons_hit k a.2 a.1 as hae]
    · rw [show (a : String × String) = (a.1, a.2) from rfl,
        headerGet_cons_miss k a.2 a.1 _ hae, headerGet_cons_miss k a.2 a.1 as hae]
      exact ih

theorem headerGet_updateHeader_ne (k kk v : String) (h : k ≠ kk)
    (hs : List (String × String)) :
    headerGet k (updateHeader kk v hs) = headerGet k hs := by
  rw [updateHeader]
  by_cases hex : hs.any (fun p => p.1 == kk)
  · rw [if_pos hex]
    exact headerGet_map_replace k kk v h hs
  · rw [if_neg hex]
    exact headerGet_append_single k kk v h hs

/-! ## Claim C4 -/

/-- C4: when the stored expiry is strictly in the future,
`_refresh_session_auth` is a no-op on session state and performs no network
activity; when the stored expiry is not in the future, it performs exactly
one renewal bootstrap — a single landing-page fetch — and, for a
well-formed landing page, a fetcher such as `get_track` then issues its own
request only after that single bootstrap. -/
theorem C4_refresh_renewal :
    (∀ (now : Nat) (home : HttpResponse HomePage) (st : ApiState),
      now < st.session_info.accessTokenExpirationTimestampMs →
      refresh_session_auth now home st = ⟨[], st, .ok ()⟩)
    ∧ (∀ (now : Nat) (home : HttpResponse HomePage) (st : ApiState),
      st.session_info.accessTokenExpirationTimestampMs ≤ now →
      refresh_session_auth now home st = set_session_auth home st
      ∧ (refresh_session_auth now home st).trace = [.getHome])
    ∧ (∀ {α : Type} (now : Nat) (home : HttpResponse HomePage) (st : ApiState)
        (si : SessionInfo) (ci : ConfigInfo) (resp : HttpResponse α) (trackId : String),
      st.session_info.accessTokenExpirationTimestampMs ≤ now →
      200 ≤ home.status_code → home.status_code < 300 →
      home.body.sessionBlob = some si → home.body.configBlob = some ci →
      (get_track now home resp trackId st).trace =
        [.getHome, .getUrl (METADATA_API_URL ("tracks") trackId)]) := by
  refine ⟨?_, ?_, ?_⟩
  · intro now home st h
    exact refresh_fresh now home st h
  · intro now home st h
    refine ⟨refresh_expired now home st h, ?_⟩
    rw [refresh_expired now home st h]
    exact set_session_auth_trace home st
  · intro α now home st si ci resp trackId hexp h1 h2 hsb hcb
    rw [get_track, refresh_expired now home st hexp,
      set_session_auth_ok home st si ci h1 h2 hsb hcb]
    cases check_response resp with
    | error e => rfl
    | ok u => cases u; rfl

/-- Witness for `C4_refresh_renewal`: a fresh expiry is a no-op, an expired
one triggers exactly one bootstrap before the track request proceeds. -/
theorem C4_refresh_renewal_witness :
    refresh_session_auth 500 exHomeOk exState0 = ⟨[], exState0, .ok ()⟩
    ∧ refresh_session_auth 2000 exHomeOk exState0 = set_session_auth exHomeOk exState0
    ∧ (refresh_session_auth 2000 exHomeOk exState0).trace = [.getHome]
    ∧ (get_track 2000 exHomeOk (⟨200, 3⟩ : HttpResponse Nat) ("t1") exState0).trace =
        [.getHome, .getUrl (METADATA_API_URL ("tracks") ("t1"))] :=
  ⟨C4_refresh_renewal.1 500 exHomeOk exState0 (by decide),
   (C4_refresh_renewal.2.1 2000 exHomeOk exState0 (by decide)).1,
   (C4_refresh_renewal.2.1 2000 exHomeOk exState0 (by decide)).2,
   C4_refresh_renewal.2.2 2000 exHomeOk exState0 ⟨("tok1"), 5000⟩ ⟨1⟩
     (⟨200, 3⟩ : HttpResponse Nat) ("t1") (by decide) (by decide) (by decide)
     (by decide) (by decide)⟩

/-! ## Claim C9 -/

/-- C9: token renewal is frame-preserving — whether it no-ops, fails, or
replaces the token, `_refresh_session_auth` leaves the cookie jar exactly
as loaded and leaves every header other than `Authorization` unchanged;
the session object is mutated in place, never reconstructed. -/
theorem C9_renewal_frame :
    ∀ (now : Nat) (home : HttpResponse HomePage) (st : ApiState) (k : String),
      k ≠ ("Authorization") →
      (refresh_session_auth now home st).state.cookies = st.cookies
      ∧ headerGet k (refresh_session_auth now home st).state.headers =
          headerGet k st.headers := by
  intro now home st k hk
  by_cases hfresh : now < st.session_info.accessTokenExpirationTimestampMs
  · rw [refresh_fresh now home st hfresh]
    exact ⟨rfl, rfl⟩
  · rw [refresh_expired now home st (by omega)]
    rw [set_session_auth_cases]
    cases check_response home with
    | error e => exact ⟨rfl, rfl⟩
    | ok u =>
      cases u
      cases home.body.sessionBlob with
      | none => exact ⟨rfl, rfl⟩
      | some si =>
        cases home.body.configBlob with
        | none => exact ⟨rfl, rfl⟩
        | some ci =>
          exact ⟨rfl, headerGet_updateHeader_ne k ("Authorization")
            ("Bearer " ++ si.accessToken) hk st.headers⟩

/-- Witness for `C9_renewal_frame` on a renewal that does replace the
token. -/
theorem C9_renewal_frame_witness :
    (refresh_session_auth 2000 exHomeOk exState0).state.cookies = exState0.cookies
    ∧ headerGet ("accept") (refresh_session_auth 2000 exHomeOk exState0).state.headers =
        headerGet ("accept") exState0.headers :=
  C9_renewal_frame 2000 exHomeOk exState0 ("accept") (by decide)

/-! ## Claim C8 -/

/-- C8, counterexample: a successfully fetched landing page that lacks the
embedded blobs makes the bootstrap fail with the untyped builtin
`AttributeError` (from calling `.group(1)` on the `None` returned by
`re.search`), not with a dedicated `AuthenticationBootstrapFailed`
condition. -/
theorem C8_counterexample :
    set_session_auth exHomeBad exState0 =
      ⟨[.getHome], exState0,
        .error (.attributeError ("NoneType object has no attribute group"))⟩
    ∧ (set_session_auth exHomeBad exState0).result ≠
        .error .authenticationBootstrapFailed :=
  ⟨by rfl, by decide⟩

/-- C8 (amended): when the fetched landing page lacks the `"session"` or
the `"config"` blob, the bootstrap fails — fatally, with the builtin
`AttributeError`, and without attempting any fallback: the trace shows the
single landing-page fetch and nothing else. -/
theorem C8_bootstrap_failure :
    ∀ (home : HttpResponse HomePage) (st : ApiState),
      200 ≤ home.status_code → home.status_code < 300 →
      home.body.sessionBlob = none ∨ home.body.configBlob = none →
      (set_session_auth home st).trace = [.getHome]
      ∧ ∃ msg, (set_session_auth home st).result = .error (.attributeError msg) := by
  intro home st h1 h2 hmiss
  refine ⟨set_session_auth_trace home st, ?_⟩
  rw [set_session_auth_cases, check_response_ok home h1 h2]
  cases hsb : home.body.sessionBlob with
  | none => exact ⟨_, rfl⟩
  | some si =>
    cases hcb : home.body.configBlob with
    | none => exact ⟨_, rfl⟩
    | some ci =>
      rcases hmiss with hm | hm
      · rw [hsb] at hm; cases hm
      · rw [hcb] at hm; cases hm

/-- Witness for `C8_bootstrap_failure` at the blob-less landing page. -/
theorem C8_bootstrap_failure_witness :
    (set_session_auth exHomeBad exState0).trace = [.getHome]
    ∧ ∃ msg, (set_session_auth exHomeBad exState0).result =
        .error (.attributeError msg) :=
  C8_bootstrap_failure exHomeBad exState0 (by decide) (by decide) (Or.inl rfl)

/-! ## Claim C5 -/

/-- C5: with a valid token, a 404 from the lyrics endpoint makes
`get_lyrics` return the explicit absence value `none` without raising,
while the same 404 from the track metadata endpoint makes `get_track`
raise `RemoteRequestFailed` carrying the status. -/
theorem C5_lyrics_404_absence :
    ∀ {α : Type} (now : Nat) (home : HttpResponse HomePage) (st : ApiState)
      (resp : HttpResponse α) (trackId : String),
      now < st.session_info.accessTokenExpirationTimestampMs →
      resp.status_code = 404 →
      get_lyrics now home resp trackId st =
        ⟨[.getUrl (LYRICS_API_URL trackId)], st, .ok none⟩
      ∧ get_track now home resp trackId st =
        ⟨[.getUrl (METADATA_API_URL ("tracks") trackId)], st,
          .error (.remoteRequestFailed 404)⟩ := by
  intro α now home st resp trackId hfresh h404
  constructor
  · rw [get_lyrics, refresh_fresh now home st hfresh]
    simp only [h404]
    rfl
  · rw [get_track, refresh_fresh now home st hfresh]
    rw [check_response_fail resp (by omega), h404]
    rfl

/-- Witness for `C5_lyrics_404_absence` at a concrete 404 response. -/
theorem C5_lyrics_404_absence_witness :
    get_lyrics 500 exHomeOk (⟨404, 9⟩ : HttpResponse Nat) ("t1") exState0 =
      ⟨[.getUrl (LYRICS_API_URL ("t1"))], exState0, .ok none⟩
    ∧ get_track 500 exHomeOk (⟨404, 9⟩ : HttpResponse Nat) ("t1") exState0 =
      ⟨[.getUrl (METADATA_API_URL ("tracks") ("t1"))], exState0,
        .error (.remoteRequestFailed 404)⟩ :=
  C5_lyrics_404_absence 500 exHomeOk exState0 (⟨404, 9⟩ : HttpResponse Nat)
    ("t1") (by decide) (by decide)

/-! ## Claim C1 -/

theorem refresh_trace_no_getUrl (now : Nat) (home : HttpResponse HomePage)
    (st : ApiState) (url : String) :
    Event.getUrl url ∉ (refresh_session_auth now home st).trace := by
  by_cases h : now < st.session_info.accessTokenExpirationTimestampMs
  · rw [refresh_fresh now home st h]
    simp
  · rw [refresh_expired now home st (by omega)]
    rw [show (set_session_auth home st).trace = [Event.getHome] from
      set_session_auth_trace home st]
    simp

/-- C1, counterexample: the Collection Extender does not invoke the
renewal precondition.  With a session whose token expired at 1000 ms and a
clock at 2000 ms, a run over one continuation page fetches the page and
sleeps, emitting no landing-page fetch (no renewal bootstrap) at all — the
page request is made while `now ≥ access_token_expiry`. -/
theorem C1_counterexample :
    exState0.session_info.accessTokenExpirationTimestampMs ≤ 2000
    ∧ extend_track_collection exServer3 ⟨[1, 2, 3], some ("u3")⟩ 5 =
        ⟨[⟨[6], none⟩], [.getUrl ("u3"), .sleepMs 500], .done⟩
    ∧ Event.getHome ∉
        (extend_track_collection exServer3 ⟨[1, 2, 3], some ("u3")⟩ 5).trace :=
  ⟨by decide, by rfl, by decide⟩

/-- C1 (amended): every resource fetcher runs the renewal precondition
before its single request — its request event appears only after a
successful `_refresh_session_auth`, whose events precede it in the trace —
and after a successful refresh the invariant `now < access_token_expiry`
holds provided any freshly served token is itself unexpired.  The
Collection Extender, by contrast, never performs a renewal: no landing-page
fetch ever appears in its trace. -/
theorem C1_ensure_valid_before_calls :
    (∀ {α : Type} (now : Nat) (home : HttpResponse HomePage)
      (resp : HttpResponse α) (gid mt : String) (st : ApiState),
      (∃ url, Event.getUrl url ∈ (get_gid_metadata now home resp gid mt st).trace) →
      (refresh_session_auth now home st).result = .ok ()
      ∧ (get_gid_metadata now home resp gid mt st).trace =
          (refresh_session_auth now home st).trace
            ++ [.getUrl (GID_METADATA_API_URL gid mt)])
    ∧ (∀ {α : Type} (now : Nat) (home : HttpResponse HomePage)
      (resp : HttpResponse α) (trackId : String) (st : ApiState),
      (∃ url, Event.getUrl url ∈ (get_lyrics now home resp trackId st).trace) →
      (refresh_session_auth now home st).result = .ok ()
      ∧ (get_lyrics now home resp trackId st).trace =
          (refresh_session_auth now home st).trace
            ++ [.getUrl (LYRICS_API_URL trackId)])
    ∧ (∀ {α : Type} (now : Nat) (home : HttpResponse HomePage)
      (resp : HttpResponse α) (trackId : String) (st : ApiState),
      (∃ url, Event.getUrl url ∈ (get_track now home resp trackId st).trace) →
      (refresh_session_auth now home st).result = .ok ()
      ∧ (get_track now home resp trackId st).trace =
          (refresh_session_auth now home st).trace
            ++ [.getUrl (METADATA_API_URL ("tracks") trackId)])
    ∧ (∀ (now : Nat) (home : HttpResponse HomePage) (st : ApiState),
      (refresh_session_auth now home st).result = .ok () →
      (∀ si, home.body.sessionBlob = some si →
        now < si.accessTokenExpirationTimestampMs) →
      now < (refresh_session_auth now home st).state.session_info.accessTokenExpirationTimestampMs)
    ∧ (∀ (server : String → HttpResponse TrackCollection)
        (next : Option String) (fuel : Nat),
      Event.getHome ∉ (extendLoop server next fuel).trace) := by
  refine ⟨?_, ?_, ?_, ?_, ?_⟩
  · intro α now home resp gid mt st hfetch
    rcases hres : refresh_session_auth now home st with ⟨tr, st1, res⟩
    rw [get_gid_metadata, hres] at hfetch ⊢
    cases res with
    | error e =>
      obtain ⟨url, hurl⟩ := hfetch
      have := refresh_trace_no_getUrl now home st url
      rw [hres] at this
      exact absurd hurl this
    | ok u =>
      cases u
      refine ⟨rfl, ?_⟩
      cases check_response resp with
      | error e => rfl
      | ok u => cases u; rfl
  · intro α now home resp trackId st hfetch
    rcases hres : refresh_session_auth now home st with ⟨tr, st1, res⟩
    rw [get_lyrics, hres] at hfetch ⊢
    cases res with
    | error e =>
      obtain ⟨url, hurl⟩ := hfetch
      have := refresh_trace_no_getUrl now home st url
      rw [hres] at this
      exact absurd hurl this
    | ok u =>
      cases u
      refine ⟨rfl, ?_⟩
      by_cases h404 : resp.status_code = 404
      · simp only [h404]
        rfl
      · simp only [if_neg h404]
        cases check_response resp with
        | error e => rfl
        | ok u => cases u; rfl
  · intro α now home resp trackId st hfetch
    rcases hres : refresh_session_auth now home st with ⟨tr, st1, res⟩
    rw [get_track, hres] at hfetch ⊢
    cases res with
    | error e =>
      obtain ⟨url, hurl⟩ := hfetch
      have := refresh_trace_no_getUrl now home st url
      rw [hres] at this
      exact absurd hurl this
    | ok u =>
      cases u
      refine ⟨rfl, ?_⟩
      cases check_response resp with
      | error e => rfl
      | ok u => cases u; rfl
  · intro now home st hok hblob
    by_cases hfresh : now < st.session_info.accessTokenExpirationTimestampMs
    · rw [refresh_fresh now home st hfresh]
      exact hfresh
    · rw [refresh_expired now home st (by omega)] at hok ⊢
      obtain ⟨si, ci, hsb, _, hstate⟩ := set_session_auth_ok_inv home st hok
      rw [hstate]
      exact hblob si hsb
  · intro server next fuel
    induction fuel generalizing next with
    | zero =>
      cases next with
      | none => simp [extendLoop]
      | some url => simp [extendLoop]
    | succ fuel ih =>
      cases next with
      | none => simp [extendLoop]
      | some url =>
        rw [extendLoop]
        cases check_response (server url) with
        | error e => simp
        | ok u =>
          cases u
          simp only [List.mem_cons]
          rintro (h | h | h)
          · cases h
          · cases h
          · exact ih (server url).body.next h

/-- Witness for `C1_ensure_valid_before_calls` at concrete runs. -/
theorem C1_ensure_valid_before_calls_witness :
    ((refresh_session_auth 500 exHomeOk exState0).result = .ok ()
      ∧ (get_gid_metadata 500 exHomeOk (⟨200, 3⟩ : HttpResponse Nat)
          ("g1") ("track") exState0).trace =
        (refresh_session_auth 500 exHomeOk exState0).trace
          ++ [.getUrl (GID_METADATA_API_URL ("g1") ("track"))])
    ∧ 500 < (refresh_session_auth 500 exHomeOk exState0).state.session_info.accessTokenExpirationTimestampMs
    ∧ Event.getHome ∉ (extendLoop exServer3 (some ("u2")) 5).trace :=
  ⟨C1_ensure_valid_before_calls.1 500 exHomeOk (⟨200, 3⟩ : HttpResponse Nat)
      ("g1") ("track") exState0
      ⟨GID_METADATA_API_URL ("g1") ("track"), by decide⟩,
   C1_ensure_valid_before_calls.2.2.2.1 500 exHomeOk exState0 (by decide)
     (fun si hsi => by cases hsi; decide),
   C1_ensure_valid_before_calls.2.2.2.2 exServer3 (some ("u2")) 5⟩

/-! ## Claim C6 -/

/-- C6: on a finite chain (described by `YieldsPages`) the fully consumed
extender terminates — with any sufficient fuel the bounded model never
exhausts — and yields exactly the chain's pages: all continuation pages up
to and including the first whose `next` is absent when every fetch
classifies as success, and, on the first failing page fetch, exactly the
pages fetched before it, ending with that failure propagated and no
further page yielded (no retry). -/
theorem C6_extender_pages :
    ∀ (server : String → HttpResponse TrackCollection) (next : Option String)
      (ps : List TrackCollection) (err : Option PyErr),
      YieldsPages server next ps err →
      ∀ fuel, ps.length + 1 ≤ fuel →
        (extendLoop server next fuel).pages = ps
        ∧ (extendLoop server next fuel).outcome =
            (match err with
             | none => .done
             | some e => .failed e) := by
  intro server next ps err hy
  induction hy with
  | done =>
    intro fuel _
    cases fuel with
    | zero => exact ⟨rfl, rfl⟩
    | succ f => exact ⟨rfl, rfl⟩
  | fail h =>
    rename_i url e
    intro fuel hfuel
    rcases fuel with _ | f
    · cases hfuel
    · rw [extendLoop, h]
      exact ⟨rfl, rfl⟩
  | step h rest ih =>
    rename_i url ps' err'
    intro fuel hfuel
    rcases fuel with _ | f
    · cases hfuel
    · have hf : ps'.length + 1 ≤ f := by
        simp only [List.length_cons] at hfuel
        omega
      obtain ⟨ihp, iho⟩ := ih f hf
      rw [extendLoop, h]
      exact ⟨by rw [← ihp], iho⟩

/-- Witness for `C6_extender_pages`: the three-page chain yields exactly
the two continuation pages and finishes; the chain whose second
continuation fetch fails yields exactly the one page before the failure
and propagates `RemoteRequestFailed 500`. -/
theorem C6_extender_pages_witness :
    ((extendLoop exServer3 (some ("u2")) 10).pages =
        [⟨[4, 5], some ("u3")⟩, ⟨[6], none⟩]
      ∧ (extendLoop exServer3 (some ("u2")) 10).outcome = .done)
    ∧ ((extendLoop exServerFail (some ("u2")) 10).pages = [⟨[4, 5], some ("u3")⟩]
      ∧ (extendLoop exServerFail (some ("u2")) 10).outcome =
          .failed (.remoteRequestFailed 500)) :=
  ⟨C6_extender_pages exServer3 (some ("u2"))
      [⟨[4, 5], some ("u3")⟩, ⟨[6], none⟩] none
      (.step (by decide) (.step (by decide) .done)) 10 (by decide),
   C6_extender_pages exServerFail (some ("u2")) [⟨[4, 5], some ("u3")⟩]
      (some (.remoteRequestFailed 500))
      (.step (by decide) (.fail (by decide))) 10 (by decide)⟩

/-! ## LRU cache lemmas -/

theorem KeyAt_mono (k : CacheKey) (v : Album) (j j2 : Nat) (c : Cache)
    (hj : j ≤ j2) (h : KeyAt k v j c) : KeyAt k v j2 c := by
  obtain ⟨pre, post, heq, hlen, hpre⟩ := h
  exact ⟨pre, post, heq, by omega, hpre⟩

theorem lruFind_of_KeyAt (k : CacheKey) (v : Album) (j : Nat) (c : Cache)
    (h : KeyAt k v j c) : lruFind k c = some v := by
  obtain ⟨pre, post, heq, -, hpre⟩ := h
  subst heq
  induction pre with
  | nil =>
    rw [List.nil_append, lruFind, List.find?_cons]
    rw [show (((k, v) : CacheKey × Album).1 == k) = true from beq_iff_eq.mpr rfl]
    rfl
  | cons a as ih =>
    rw [List.cons_append, lruFind, List.find?_cons]
    rw [show ((a : CacheKey × Album).1 == k) = false from
      beq_eq_false_iff_ne.mpr (hpre a (by simp))]
    exact ih (fun e he => hpre e (by simp [he]))

theorem lruTouch_KeyAt (k : CacheKey) (v : Album) (k2 : CacheKey) (j : Nat)
    (c : Cache) (hne : ¬ k2 = k) (h : KeyAt k v j c) :
    KeyAt k v (j + 1) (lruTouch k2 c) := by
  obtain ⟨pre, post, heq, hlen, hpre⟩ := h
  subst heq
  rw [lruTouch]
  cases hf : (pre ++ (k, v) :: post).find? (fun e => e.1 == k2) with
  | none => exact ⟨pre, post, rfl, by omega, hpre⟩
  | some e =>
    have hek2 : e.1 = k2 := by
      have hp := List.find?_some hf
      simpa using hp
    by_cases hany : pre.any (fun e => e.1 == k2)
    · rw [List.eraseP_append, if_pos hany]
      refine ⟨e :: pre.eraseP (fun e => e.1 == k2), post, rfl, ?_, ?_⟩
      · have := List.length_eraseP_le pre (p := fun e => e.1 == k2)
        simp only [List.length_cons]
        omega
      · intro x hx
        rcases List.mem_cons.mp hx with hx | hx
        · subst hx
          rw [hek2]
          exact hne
        · exact hpre x (List.Sublist.subset (List.eraseP_sublist pre) hx)
    · rw [List.eraseP_append, if_neg hany]
      rw [List.eraseP_cons_of_neg (by
        intro hkk2
        exact hne (beq_iff_eq.mp hkk2).symm)]
      refine ⟨e :: pre, (List.eraseP (fun e => e.1 == k2) post), rfl, ?_, ?_⟩
      · simp only [List.length_cons]
        omega
      · intro x hx
        rcases List.mem_cons.mp hx with hx | hx
        · subst hx
          rw [hek2]
          exact hne
        · exact hpre x hx

theorem lruInsert_KeyAt (k : CacheKey) (v : Album) (k2 : CacheKey) (val : Album)
    (j : Nat) (c : Cache) (hne : ¬ k2 = k) (hj : j + 1 < 128)
    (h : KeyAt k v j c) : KeyAt k v (j + 1) (lruInsert k2 val c) := by
  obtain ⟨pre, post, heq, hlen, hpre⟩ := h
  subst heq
  rw [lruInsert, LRU_MAXSIZE]
  rw [show (128 : Nat) = 127 + 1 from rfl, List.take_succ_cons]
  rw [List.take_append_eq_append_take]
  rw [List.take_of_length_le (by omega : pre.length ≤ 127)]
  obtain ⟨m, hm⟩ : ∃ m, 127 - pre.length = m + 1 := ⟨127 - pre.length - 1, by omega⟩
  rw [hm, List.take_succ_cons]
  refine ⟨(k2, val) :: pre, post.take m, by rw [List.cons_append], ?_, ?_⟩
  · simp only [List.length_cons]
    omega
  · intro x hx
    rcases List.mem_cons.mp hx with hx | hx
    · subst hx
      exact hne
    · exact hpre x hx

theorem get_album_KeyAt (k : CacheKey) (v : Album) (env : Env) (albumId : String)
    (extendArg : Option Bool) (st : ApiState) (c : Cache) (j : Nat)
    (hne : ¬ ((albumId, extendArg) : CacheKey) = k) (hj : j + 1 < 128)
    (h : KeyAt k v j c) :
    KeyAt k v (j + 1) ((get_album env albumId extendArg st c).2) := by
  rw [get_album]
  cases hf : lruFind (albumId, extendArg) c with
  | some w =>
    simp only [hf]
    exact lruTouch_KeyAt k v (albumId, extendArg) j c hne h
  | none =>
    simp only [hf]
    cases hres : (get_album_body env albumId (extendArg.getD true) st).result with
    | ok album =>
      simp only [hres]
      exact lruInsert_KeyAt k v (albumId, extendArg) album j c hne hj h
    | error e =>
      simp only [hres]
      exact KeyAt_mono k v j (j + 1) c (by omega) h

theorem runAlbumCalls_KeyAt (k : CacheKey) (v : Album) :
    ∀ (calls : List (Env × String × Option Bool)) (st : ApiState) (c : Cache)
      (j : Nat),
      (∀ cl ∈ calls, ¬ ((cl.2.1, cl.2.2) : CacheKey) = k) →
      j + calls.length < 128 →
      KeyAt k v j c →
      KeyAt k v (j + calls.length) ((runAlbumCalls calls st c).2.2) := by
  intro calls
  induction calls with
  | nil =>
    intro st c j _ _ h
    simpa [runAlbumCalls] using h
  | cons cl rest ih =>
    intro st c j hkeys hlen h
    rcases cl with ⟨env, albumId, extendArg⟩
    rw [runAlbumCalls]
    have h1 : KeyAt k v (j + 1) ((get_album env albumId extendArg st c).2) :=
      get_album_KeyAt k v env albumId extendArg st c j
        (hkeys ⟨env, albumId, extendArg⟩ (by simp)) (by
          simp only [List.length_cons] at hlen
          omega) h
    have h2 := ih (get_album env albumId extendArg st c).1.state
      (get_album env albumId extendArg st c).2 (j + 1)
      (fun x hx => hkeys x (by simp [hx]))
      (by simp only [List.length_cons] at hlen; omega) h1
    have harith : j + (rest.length + 1) = (j + 1) + rest.length := by omega
    simp only [List.length_cons, harith]
    exact h2

/-- A cache hit returns the stored value with no network activity and no
state change. -/
theorem get_album_hit (env : Env) (albumId : String) (extendArg : Option Bool)
    (st : ApiState) (c : Cache) (v : Album)
    (hf : lruFind (albumId, extendArg) c = some v) :
    get_album env albumId extendArg st c =
      (⟨[], st, .ok v⟩, lruTouch (albumId, extendArg) c) := by
  rw [get_album, hf]

/-- A first call on the empty cache that succeeds stores exactly its
result under its literal argument tuple. -/
theorem get_album_first (env : Env) (albumId : String) (extendArg : Option Bool)
    (st : ApiState) (v : Album)
    (h : (get_album env albumId extendArg st []).1.result = .ok v) :
    (get_album env albumId extendArg st []).2 = [((albumId, extendArg), v)] := by
  have hf0 : lruFind ((albumId, extendArg) : CacheKey) ([] : Cache) = none := rfl
  simp only [get_album, hf0] at h ⊢
  cases hres : (get_album_body env albumId (extendArg.getD true) st).result with
  | ok album =>
    simp only [hres] at h ⊢
    cases h
    rfl
  | error e =>
    simp only [hres] at h
    cases h

/-! ## Claim C7 -/

/-- C7 (amended): a second call to the album fetcher with the same literal
argument tuple returns the identical stored value from the cache and
performs no network activity, provided fewer than 128 calls with other
argument tuples intervene (the memoization holds at most 128 entries, so a
sufficiently later repeat can instead be evicted and re-fetch — see the
counterexample). -/
theorem C7_album_cache (env1 env2 : Env) (mids : List (Env × String × Option Bool))
    (albumId : String) (extendArg : Option Bool) (st0 : ApiState) (v : Album)
    (step1 : Step Album) (c1 : Cache)
    (hg : get_album env1 albumId extendArg st0 [] = (step1, c1))
    (hres : step1.result = .ok v)
    (hkeys : ∀ cl ∈ mids, ¬ ((cl.2.1, cl.2.2) : CacheKey) = (albumId, extendArg))
    (hlen : mids.length < 128)
    (recs : List CallRecord) (st2 : ApiState) (c2 : Cache)
    (hrun : runAlbumCalls mids step1.state c1 = (recs, st2, c2)) :
    get_album env2 albumId extendArg st2 c2 =
      (⟨[], st2, .ok v⟩, lruTouch (albumId, extendArg) c2) := by
  have hres0 : (get_album env1 albumId extendArg st0 []).1.result = .ok v := by
    rw [hg]
    exact hres
  have hc1 : c1 = [((albumId, extendArg), v)] := by
    have := get_album_first env1 albumId extendArg st0 v hres0
    rw [hg] at this
    exact this
  have hK0 : KeyAt (albumId, extendArg) v 0 c1 := by
    rw [hc1]
    exact ⟨[], [], rfl, by simp, by intro e he; cases he⟩
  have hKrun := runAlbumCalls_KeyAt (albumId, extendArg) v mids step1.state c1 0
    hkeys (by omega) hK0
  rw [hrun] at hKrun
  exact get_album_hit env2 albumId extendArg st2 c2 v
    (lruFind_of_KeyAt (albumId, extendArg) v (0 + mids.length) c2 hKrun)

/-- Witness for `C7_album_cache`: one other call intervenes, the repeat is
a hit with the stored album and an empty trace. -/
theorem C7_album_cache_witness :
    get_album exEnv ("a") (some false)
      (runAlbumCalls [(exEnv, ("b"), some false)]
        (get_album exEnv ("a") (some false) exState0 []).1.state
        (get_album exEnv ("a") (some false) exState0 []).2).2.1
      (runAlbumCalls [(exEnv, ("b"), some false)]
        (get_album exEnv ("a") (some false) exState0 []).1.state
        (get_album exEnv ("a") (some false) exState0 []).2).2.2 =
      (⟨[], (runAlbumCalls [(exEnv, ("b"), some false)]
        (get_album exEnv ("a") (some false) exState0 []).1.state
        (get_album exEnv ("a") (some false) exState0 []).2).2.1,
        .ok ⟨⟨[], none⟩, 7⟩⟩,
       lruTouch (("a"), some false)
        (runAlbumCalls [(exEnv, ("b"), some false)]
          (get_album exEnv ("a") (some false) exState0 []).1.state
          (get_album exEnv ("a") (some false) exState0 []).2).2.2) :=
  C7_album_cache exEnv exEnv [(exEnv, ("b"), some false)] ("a") (some false)
    exState0 ⟨⟨[], none⟩, 7⟩
    (get_album exEnv ("a") (some false) exState0 []).1
    (get_album exEnv ("a") (some false) exState0 []).2
    rfl (by decide) (by decide) (by decide)
    (runAlbumCalls [(exEnv, ("b"), some false)]
      (get_album exEnv ("a") (some false) exState0 []).1.state
      (get_album exEnv ("a") (some false) exState0 []).2).1
    (runAlbumCalls [(exEnv, ("b"), some false)]
      (get_album exEnv ("a") (some false) exState0 []).1.state
      (get_album exEnv ("a") (some false) exState0 []).2).2.1
    (runAlbumCalls [(exEnv, ("b"), some false)]
      (get_album exEnv ("a") (some false) exState0 []).1.state
      (get_album exEnv ("a") (some false) exState0 []).2).2.2
    rfl

set_option maxRecDepth 100000 in
/-- C7, counterexample: "at any later point in the process lifetime" is
false.  The first and the last of these 130 calls use the identical
literal argument tuple `(exKey 0, some false)`, yet every one of the 130
calls — the final repeat included — issues a network request: after 128
distinct other tuples the first entry has been evicted from the
128-capacity LRU cache. -/
theorem C7_counterexample :
    exEvictCalls.head?.map (fun cl => ((cl.2.1, cl.2.2) : CacheKey)) =
      some ((exKey 0), some false)
    ∧ exEvictCalls.getLast?.map (fun cl => ((cl.2.1, cl.2.2) : CacheKey)) =
      some ((exKey 0), some false)
    ∧ (runAlbumCalls exEvictCalls exState0 []).1.map (fun r => r.netCalls) =
      List.replicate 130 1 :=
  ⟨by decide, by decide, by decide⟩

/-! ## Claim C10 -/

theorem lruTouch_length_le (k : CacheKey) (c : Cache) :
    (lruTouch k c).length ≤ c.length := by
  rw [lruTouch]
  cases hf : c.find? (fun e => e.1 == k) with
  | none => exact Nat.le_refl _
  | some e =>
    have hmem : e ∈ c := List.mem_of_find?_eq_some hf
    have hp := List.find?_some hf
    rw [List.length_cons, List.length_eraseP_of_mem hmem hp]
    have h1 : 1 ≤ c.length := List.length_pos.mpr (List.ne_nil_of_mem hmem)
    omega

theorem lruInsert_length_le (k : CacheKey) (v : Album) (c : Cache) :
    (lruInsert k v c).length ≤ 128 := by
  rw [lruInsert, LRU_MAXSIZE, List.length_take]
  omega

theorem get_album_cache_length (env : Env) (albumId : String)
    (extendArg : Option Bool) (st : ApiState) (c : Cache)
    (h : c.length ≤ 128) :
    ((get_album env albumId extendArg st c).2).length ≤ 128 := by
  rw [get_album]
  cases hf : lruFind (albumId, extendArg) c with
  | some w =>
    simp only [hf]
    exact Nat.le_trans (lruTouch_length_le (albumId, extendArg) c) h
  | none =>
    simp only [hf]
    cases hres : (get_album_body env albumId (extendArg.getD true) st).result with
    | ok album =>
      simp only [hres]
      exact lruInsert_length_le (albumId, extendArg) album c
    | error e =>
      simp only [hres]
      exact h

theorem runAlbumCalls_cache_length :
    ∀ (calls : List (Env × String × Option Bool)) (st : ApiState) (c : Cache),
      c.length ≤ 128 → ((runAlbumCalls calls st c).2.2).length ≤ 128 := by
  intro calls
  induction calls with
  | nil => intro st c h; exact h
  | cons cl rest ih =>
    intro st c h
    rcases cl with ⟨env, albumId, extendArg⟩
    rw [runAlbumCalls]
    exact ih (get_album env albumId extendArg st c).1.state
      (get_album env albumId extendArg st c).2
      (get_album_cache_length env albumId extendArg st c h)

set_option maxRecDepth 100000 in
/-- C10: the album cache keys on the literal positional-argument tuple and
holds at most 128 entries.  First conjunct: a call omitting `extend` and a
call passing `extend=True` explicitly occupy distinct entries — both calls
issue a network request and the cache ends with two entries for the same
semantic request.  Second conjunct: the cache never exceeds the
`functools.lru_cache()` default capacity of 128 entries.  Third conjunct:
after 129 distinct tuples from a fresh cache, repeating the first tuple
again issues a network request — the least-recently-used entry was evicted. -/
theorem C10_literal_tuple_key_and_capacity :
    ((runAlbumCalls [(exEnv, ("a"), none), (exEnv, ("a"), some true)]
        exState0 []).1.map (fun r => r.netCalls) = [1, 1]
      ∧ ((runAlbumCalls [(exEnv, ("a"), none), (exEnv, ("a"), some true)]
        exState0 []).2.2).length = 2)
    ∧ (∀ (calls : List (Env × String × Option Bool)) (st : ApiState) (c : Cache),
        c.length ≤ 128 → ((runAlbumCalls calls st c).2.2).length ≤ 128)
    ∧ ((runAlbumCalls exEvictCallsB exState0 []).1.map (fun r => r.netCalls) =
        List.replicate 130 1) :=
  ⟨⟨by decide, by decide⟩, runAlbumCalls_cache_length, by decide⟩

/-- Witness for `C10_literal_tuple_key_and_capacity` at a concrete run. -/
theorem C10_literal_tuple_key_and_capacity_witness :
    ((runAlbumCalls [(exEnv, ("c"), some false)] exState0 []).2.2).length ≤ 128 :=
  C10_literal_tuple_key_and_capacity.2.1 [(exEnv, ("c"), some false)]
    exState0 [] (by decide)
